import Mathlib

/-!
# newserv license registry (`src/License.cc`)

A shallow embedding of `License::str`'s data type and of `LicenseManager`
(constructor, `save_locked`, `verify_pc`, `verify_gc`, `verify_bb`, `count`,
`ban_until`, `add`, `remove`, `snapshot`), followed by theorems about them.

Modelling conventions
* `char` buffers and `const char*` arguments are `List Char`: the bytes of the
  buffer, read as if followed by NUL bytes.  `strcmp`, `strncmp` and the
  conversion to `std::string` stop at the first NUL exactly as in C.
* `shared_ptr<License>` is an address (`Nat`) into `LicenseManager.heap`; the
  two indices hold addresses, so a record reached through either index is the
  same object.
* C++ exceptions are values of `Exception`; an operation that may mutate the
  registry returns its outcome together with the registry after the call.
* `uint32_t` / `uint64_t` values are `Nat` (the code does no arithmetic on them).
* `now()` is passed in as an argument.
* Calls run one at a time: the `rw_guard` lock is not part of the state.  The
  mode in which each operation holds it while it reads or writes is modelled
  separately, as the list of accesses the operation performs in program order.
-/

namespace Newserv

/-! ## C strings -/

/-- The NUL byte that terminates a C string. -/
def NUL : Char := Char.ofNat 0

/-- The `std::string` built from a `char*`: the bytes before the first NUL. -/
def c_str (s : List Char) : List Char :=
  s.takeWhile (fun c => c != NUL)

/-- C `strncmp(s1, s2, n)`: compares at most `n` bytes and stops after a NUL;
a byte past the end of the list reads as NUL. -/
def strncmp : List Char → List Char → Nat → Int
  | _, _, 0 => 0
  | s1, s2, n + 1 =>
    let c1 := s1.headD NUL
    let c2 := s2.headD NUL
    if c1 ≠ c2 then (c1.toNat : Int) - (c2.toNat : Int)
    else if c1 = NUL then 0
    else strncmp s1.tail s2.tail n

/-- C `strcmp(s1, s2)`: compares up to and including the first NUL; a byte past
the end of the list reads as NUL. -/
def strcmp : List Char → List Char → Int
  | [], s2 => (NUL.toNat : Int) - ((s2.headD NUL).toNat : Int)
  | c1 :: s1, s2 =>
    let c2 := s2.headD NUL
    if c1 ≠ c2 then (c1.toNat : Int) - (c2.toNat : Int)
    else if c1 = NUL then 0
    else strcmp s1 s2.tail

/-! ## License -/

/-- Modelled from the spec: `struct License` is declared in `License.hh`, which
is not among the sources; the fields are those `License.cc` reads (`username`,
`bb_password`, `serial_number`, `access_key`, `gc_password`, `privileges`,
`ban_end_time`), the four `char` arrays as their contents. -/
structure License where
  username : List Char
  bb_password : List Char
  serial_number : Nat
  access_key : List Char
  gc_password : List Char
  privileges : Nat
  ban_end_time : Nat
deriving DecidableEq

/-- The test `this->username[0]` (also `l->username[0]`): the first byte of the
username buffer is not NUL. -/
def License.has_username (l : License) : Prop :=
  l.username.headD NUL ≠ NUL

instance (l : License) : Decidable l.has_username := by
  unfold License.has_username
  exact inferInstance

/-! ## Exceptions -/

/-- The C++ exceptions the registry throws: `std::out_of_range` (from
`map::at`), `std::invalid_argument` with its message, and phosg's
`cannot_open_file`. -/
inductive Exception where
  | out_of_range
  | invalid_argument (what : String)
  | cannot_open_file
deriving DecidableEq

/-- The error the spec calls `NotFound`. -/
def NotFound : Exception := Exception.out_of_range

/-- The two errors the spec calls `InvalidCredential`. -/
def incorrect_access_key : Exception := Exception.invalid_argument "incorrect access key"

/-- The second of the two errors the spec calls `InvalidCredential`. -/
def incorrect_password : Exception := Exception.invalid_argument "incorrect password"

/-- The error the spec calls `Banned`. -/
def user_is_banned : Exception := Exception.invalid_argument "user is banned"

/-! ## Maps

An index is a list of (key, value) entries in iteration order; `emplace` never
produces two entries with one key. -/

section Map
variable {K V : Type} [DecidableEq K]

/-- Lookup of a key: the value of the first entry with that key. -/
def map_find : List (K × V) → K → Option V
  | [], _ => none
  | (k, v) :: rest, key => if k = key then some v else map_find rest key

/-- C++ `map::at`: the value under the key, or `std::out_of_range`. -/
def map_at (m : List (K × V)) (key : K) : Except Exception V :=
  match map_find m key with
  | some v => Except.ok v
  | none => Except.error Exception.out_of_range

/-- C++ `map::emplace`: inserts the entry unless the key is already present,
in which case the map is left as it is. -/
def map_emplace (m : List (K × V)) (key : K) (value : V) : List (K × V) :=
  match map_find m key with
  | some _ => m
  | none => m ++ [(key, value)]

/-- C++ `map::erase(key)`: removes the entries with that key. -/
def map_erase (m : List (K × V)) (key : K) : List (K × V) :=
  m.filter (fun e => decide (e.1 ≠ key))

/-- C++ `map::size`. -/
def map_size (m : List (K × V)) : Nat := m.length

end Map

/-! ## LicenseManager -/

/-- Modelled from the spec: `class LicenseManager` is declared in `License.hh`,
which is not among the sources; its two indices are maps keyed by serial number
and by username string.  The state is the License objects the registry can
reach (`heap`, with `next` the first unused address), the contents of the file
named `filename` (`none` when the file does not exist; otherwise its
fixed-size records in order), and the two indices. -/
structure LicenseManager where
  heap : Nat → License
  next : Nat
  file : Option (List License)
  bb_username_to_license : List (List Char × Nat)
  serial_number_to_license : List (Nat × Nat)

/-- Writing one object: `heap` with the object at `p` replaced. -/
def heap_set (heap : Nat → License) (p : Nat) (l : License) : Nat → License :=
  fun q => if q = p then l else heap q

/-- `shared_ptr<License> license(new License(l))`: a new object holding a copy
of `l`; returns the registry with the enlarged heap and the new address. -/
def new_License (m : LicenseManager) (l : License) : LicenseManager × Nat :=
  ({ m with heap := heap_set m.heap m.next l, next := m.next + 1 }, m.next)

/-- phosg `load_vector_file<License>`: the records of the file, or
`cannot_open_file` when it does not exist. -/
def load_vector_file (file : Option (List License)) : Except Exception (List License) :=
  match file with
  | some records => Except.ok records
  | none => Except.error Exception.cannot_open_file

/-- The registry before the constructor body runs: both indices empty. -/
def LicenseManager.init (file : Option (List License)) : LicenseManager :=
  { heap := fun _ => ⟨[], [], 0, [], [], 0, 0⟩, next := 0, file := file,
    bb_username_to_license := [], serial_number_to_license := [] }

/-- One iteration of the constructor's loop (lines 45-48). -/
def load_license (m : LicenseManager) (read_license : License) : LicenseManager :=
  let m1 := (new_License m read_license).1
  let license := (new_License m read_license).2
  let serial_number := (m1.heap license).serial_number
  let m2 := { m1 with
    bb_username_to_license :=
      map_emplace m1.bb_username_to_license (c_str (m1.heap license).username) license }
  { m2 with
    serial_number_to_license :=
      map_emplace m2.serial_number_to_license serial_number license }

/-- `LicenseManager::LicenseManager(filename)`, given the contents of the file. -/
def LicenseManager.LicenseManager (file : Option (List License)) : LicenseManager :=
  match load_vector_file file with
  | Except.ok licenses => licenses.foldl load_license (LicenseManager.init file)
  | Except.error _ => LicenseManager.init file

/-- `LicenseManager::save_locked`: the file is truncated and receives the
record of every entry of the serial-number index, in iteration order. -/
def save_locked (m : LicenseManager) : LicenseManager :=
  { m with file := some (m.serial_number_to_license.map (fun it => m.heap it.2)) }

/-- The test `password && strcmp(stored, password)` of the three verify
functions: a password was supplied and `strcmp` finds it different. -/
def password_differs (stored : List Char) : Option (List Char) → Bool
  | some password => decide (strcmp stored password ≠ 0)
  | none => false

/-- `LicenseManager::verify_pc`. -/
def verify_pc (m : LicenseManager) (serial_number : Nat) (access_key : List Char)
    (password : Option (List Char)) (now : Nat) : Except Exception Nat :=
  match map_at m.serial_number_to_license serial_number with
  | Except.error e => Except.error e
  | Except.ok license =>
    if strncmp (m.heap license).access_key access_key 8 ≠ 0 then
      Except.error (Exception.invalid_argument "incorrect access key")
    else if password_differs (m.heap license).gc_password password then
      Except.error (Exception.invalid_argument "incorrect password")
    else if (m.heap license).ban_end_time ≠ 0 ∧ (m.heap license).ban_end_time ≥ now then
      Except.error (Exception.invalid_argument "user is banned")
    else Except.ok license

/-- `LicenseManager::verify_gc`. -/
def verify_gc (m : LicenseManager) (serial_number : Nat) (access_key : List Char)
    (password : Option (List Char)) (now : Nat) : Except Exception Nat :=
  match map_at m.serial_number_to_license serial_number with
  | Except.error e => Except.error e
  | Except.ok license =>
    if strncmp (m.heap license).access_key access_key 12 ≠ 0 then
      Except.error (Exception.invalid_argument "incorrect access key")
    else if password_differs (m.heap license).gc_password password then
      Except.error (Exception.invalid_argument "incorrect password")
    else if (m.heap license).ban_end_time ≠ 0 ∧ (m.heap license).ban_end_time ≥ now then
      Except.error (Exception.invalid_argument "user is banned")
    else Except.ok license

/-- `LicenseManager::verify_bb`. -/
def verify_bb (m : LicenseManager) (username : List Char)
    (password : Option (List Char)) (now : Nat) : Except Exception Nat :=
  match map_at m.bb_username_to_license (c_str username) with
  | Except.error e => Except.error e
  | Except.ok license =>
    if password_differs (m.heap license).bb_password password then
      Except.error (Exception.invalid_argument "incorrect password")
    else if (m.heap license).ban_end_time ≠ 0 ∧ (m.heap license).ban_end_time ≥ now then
      Except.error (Exception.invalid_argument "user is banned")
    else Except.ok license

/-- `LicenseManager::count`. -/
def count (m : LicenseManager) : Nat :=
  map_size m.serial_number_to_license

/-- `LicenseManager::ban_until`. -/
def ban_until (m : LicenseManager) (serial_number end_time : Nat) :
    Except Exception Unit × LicenseManager :=
  match map_at m.serial_number_to_license serial_number with
  | Except.error e => (Except.error e, m)
  | Except.ok license =>
    let m1 := { m with
      heap := heap_set m.heap license { m.heap license with ban_end_time := end_time } }
    (Except.ok (), save_locked m1)

/-- `LicenseManager::add`, `l` being the address the `shared_ptr` holds. -/
def add (m : LicenseManager) (l : Nat) : Except Exception Unit × LicenseManager :=
  let serial_number := (m.heap l).serial_number
  let m1 := { m with
    serial_number_to_license := map_emplace m.serial_number_to_license serial_number l }
  let m2 := if (m1.heap l).has_username then
      { m1 with
        bb_username_to_license :=
          map_emplace m1.bb_username_to_license (c_str (m1.heap l).username) l }
    else m1
  (Except.ok (), save_locked m2)

/-- `LicenseManager::remove`. -/
def remove (m : LicenseManager) (serial_number : Nat) :
    Except Exception Unit × LicenseManager :=
  match map_at m.serial_number_to_license serial_number with
  | Except.error e => (Except.error e, m)
  | Except.ok l =>
    let m1 := { m with
      serial_number_to_license :=
        map_erase m.serial_number_to_license (m.heap l).serial_number }
    let m2 := if (m1.heap l).has_username then
        { m1 with
          bb_username_to_license :=
            map_erase m1.bb_username_to_license (c_str (m1.heap l).username) }
      else m1
    (Except.ok (), save_locked m2)

/-- `LicenseManager::snapshot`. -/
def snapshot (m : LicenseManager) : List License :=
  m.serial_number_to_license.map (fun it => m.heap it.2)

/-- Length in bytes of the backing file, `sizeof_License` being
`sizeof(License)`: the file holds whole records only, and a file that does not
exist has no bytes. -/
def file_size (sizeof_License : Nat) : Option (List License) → Nat
  | some records => records.length * sizeof_License
  | none => 0

/-! ## The verification rules in the words of the specification -/

/-- The rule for `verify_by_username` as the specification words it: NotFound
when the username is not in the username index; otherwise, for the indexed
record, InvalidCredential when a password is supplied and is not the stored
`bb_password` (the two compared in full as strings); otherwise Banned when
`ban_end_time` is non-zero and not below `now`; otherwise the record. -/
def verify_by_username_spec (m : LicenseManager) (username : List Char)
    (password : Option (List Char)) (now : Nat) : Except Exception Nat :=
  match map_find m.bb_username_to_license (c_str username) with
  | none => Except.error NotFound
  | some license =>
    match password with
    | some pw =>
      if c_str pw ≠ c_str (m.heap license).bb_password then
        Except.error incorrect_password
      else if (m.heap license).ban_end_time ≠ 0 ∧ (m.heap license).ban_end_time ≥ now then
        Except.error user_is_banned
      else Except.ok license
    | none =>
      if (m.heap license).ban_end_time ≠ 0 ∧ (m.heap license).ban_end_time ≥ now then
        Except.error user_is_banned
      else Except.ok license

/-- The rule for `verify(serial_number, access_key, password,
key_comparison_length)` as the specification words it: the one verification of
which `verify_pc` and `verify_gc` are the instances for lengths 8 and 12. -/
def verify_spec (key_comparison_length : Nat) (m : LicenseManager) (serial_number : Nat)
    (access_key : List Char) (password : Option (List Char)) (now : Nat) :
    Except Exception Nat :=
  match map_find m.serial_number_to_license serial_number with
  | none => Except.error NotFound
  | some license =>
    if (c_str (m.heap license).access_key ++ [NUL]).take key_comparison_length ≠
        (c_str access_key ++ [NUL]).take key_comparison_length then
      Except.error incorrect_access_key
    else if password_differs (m.heap license).gc_password password then
      Except.error incorrect_password
    else if (m.heap license).ban_end_time ≠ 0 ∧ (m.heap license).ban_end_time ≥ now then
      Except.error user_is_banned
    else Except.ok license

/-- The C++ class of an exception, which is what a `catch` clause selects on. -/
def Exception.class_name : Exception → String
  | Exception.out_of_range => "std::out_of_range"
  | Exception.invalid_argument _ => "std::invalid_argument"
  | Exception.cannot_open_file => "cannot_open_file"

/-- The license at `p` is currently banned: the test of lines 75, 93 and 108. -/
def currently_banned (m : LicenseManager) (p now : Nat) : Prop :=
  (m.heap p).ban_end_time ≠ 0 ∧ (m.heap p).ban_end_time ≥ now

instance (m : LicenseManager) (p now : Nat) : Decidable (currently_banned m p now) := by
  unfold currently_banned
  exact inferInstance

/-! ## `License::str` -/

/-- `string_printf("%" PRIu32, n)` and `string_printf("%" PRIu64, n)`: the
decimal digits of `n`. -/
def string_printf_u (n : Nat) : List Char :=
  Nat.toDigits 10 n

/-- `License::str`, the `std::string` it returns as the list of its bytes. -/
def License.str (l : License) : List Char :=
  let ret := "License(serial_number=".toList ++ string_printf_u l.serial_number
  let ret := if l.username.headD NUL ≠ NUL then
      ret ++ ", username=".toList ++ c_str l.username
    else ret
  let ret := if l.bb_password.headD NUL ≠ NUL then
      ret ++ ", bb-password=".toList ++ c_str l.bb_password
    else ret
  let ret := if l.access_key.headD NUL ≠ NUL then
      ret ++ ", access-key=".toList ++ c_str l.access_key
    else ret
  let ret := if l.gc_password.headD NUL ≠ NUL then
      ret ++ ", gc-password=".toList ++ c_str l.gc_password
    else ret
  let ret := ret ++ ", privileges=".toList ++ string_printf_u l.privileges
  let ret := if l.ban_end_time ≠ 0 then
      ret ++ ", banned-until=".toList ++ string_printf_u l.ban_end_time
    else ret
  ret ++ ")".toList

/-- A part of the textual representation that appears only when its value is
a non-empty string: the label followed by the string. -/
def str_field (label value : List Char) : List Char :=
  if c_str value ≠ [] then label ++ c_str value else []

/-- The textual representation as the specification describes it: the serial
number, then those of username, bb-password, access-key and gc-password that
are non-empty, then the privileges, then the ban expiry if it is set. -/
def str_spec (l : License) : List Char :=
  "License(serial_number=".toList ++ Nat.toDigits 10 l.serial_number ++
  str_field ", username=".toList l.username ++
  str_field ", bb-password=".toList l.bb_password ++
  str_field ", access-key=".toList l.access_key ++
  str_field ", gc-password=".toList l.gc_password ++
  ", privileges=".toList ++ Nat.toDigits 10 l.privileges ++
  (if l.ban_end_time ≠ 0 then
    ", banned-until=".toList ++ Nat.toDigits 10 l.ban_end_time else []) ++
  ")".toList

/-! ## The lock -/

/-- What an operation does to the lock and to the shared state, in program
order: `guard exclusive` is the construction of an `rw_guard` on the registry
lock (`exclusive` is its second argument, `false` in every read operation and
`true` where `add` and `remove` change the indices: `true` takes the lock in
write mode, `false` in read mode), `unguard` its destruction at the end of its
scope. -/
inductive Access where
  | guard (exclusive : Bool)
  | unguard
  | read_index
  | write_index
  | read_record
  | write_record
  | write_file
deriving DecidableEq

/-- The accesses of `save_locked` (lines 57-60). -/
def save_locked_accesses : List Access :=
  [Access.read_index, Access.read_record, Access.write_file]

/-- The accesses of `verify_pc` and of `verify_gc` (lines 65-78, 83-96). -/
def verify_accesses (m : LicenseManager) (serial_number : Nat) : List Access :=
  [Access.guard false, Access.read_index] ++
  (match map_find m.serial_number_to_license serial_number with
    | some _ => [Access.read_record]
    | none => []) ++
  [Access.unguard]

/-- The accesses of `verify_bb` (lines 101-111). -/
def verify_bb_accesses (m : LicenseManager) (username : List Char) : List Access :=
  [Access.guard false, Access.read_index] ++
  (match map_find m.bb_username_to_license (c_str username) with
    | some _ => [Access.read_record]
    | none => []) ++
  [Access.unguard]

/-- The accesses of `count` (lines 115-116). -/
def count_accesses : List Access :=
  [Access.guard false, Access.read_index, Access.unguard]

/-- The accesses of `snapshot` (lines 156-160). -/
def snapshot_accesses : List Access :=
  [Access.guard false, Access.read_index, Access.read_record, Access.unguard]

/-- The accesses of `ban_until` (lines 120-122). -/
def ban_until_accesses (m : LicenseManager) (serial_number : Nat) : List Access :=
  [Access.guard false, Access.read_index] ++
  (match map_find m.serial_number_to_license serial_number with
    | some _ => [Access.write_record] ++ save_locked_accesses
    | none => []) ++
  [Access.unguard]

/-- The accesses of `add` (lines 127-136). -/
def add_accesses (m : LicenseManager) (l : Nat) : List Access :=
  [Access.guard true, Access.read_record, Access.write_index] ++
  (if (m.heap l).has_username then [Access.write_index] else []) ++
  [Access.unguard, Access.guard false] ++ save_locked_accesses ++ [Access.unguard]

/-- The accesses of `remove` (lines 141-150). -/
def remove_accesses (m : LicenseManager) (serial_number : Nat) : List Access :=
  [Access.guard true, Access.read_index] ++
  (match map_find m.serial_number_to_license serial_number with
    | some l =>
      [Access.read_record, Access.write_index] ++
      (if (m.heap l).has_username then [Access.write_index] else []) ++
      [Access.unguard, Access.guard false] ++ save_locked_accesses ++ [Access.unguard]
    | none => [Access.unguard])

/-- Every write to an index or to a record happens while the lock is held in
exclusive mode; `held` is the mode in which it is held (`none`: not held). -/
def writes_under_exclusive : Option Bool → List Access → Bool
  | _, [] => true
  | _, Access.guard exclusive :: rest => writes_under_exclusive (some exclusive) rest
  | _, Access.unguard :: rest => writes_under_exclusive none rest
  | held, Access.write_index :: rest =>
    decide (held = some true) && writes_under_exclusive held rest
  | held, Access.write_record :: rest =>
    decide (held = some true) && writes_under_exclusive held rest
  | held, _ :: rest => writes_under_exclusive held rest

/-- Every read of an index or of a record happens while the lock is held in
shared mode. -/
def reads_under_shared : Option Bool → List Access → Bool
  | _, [] => true
  | _, Access.guard exclusive :: rest => reads_under_shared (some exclusive) rest
  | _, Access.unguard :: rest => reads_under_shared none rest
  | held, Access.read_index :: rest =>
    decide (held = some false) && reads_under_shared held rest
  | held, Access.read_record :: rest =>
    decide (held = some false) && reads_under_shared held rest
  | held, _ :: rest => reads_under_shared held rest

/-- The value of a decimal digit character. -/
def digit_value (c : Char) : Nat :=
  c.toNat - 48

/-- The number a string of decimal digits stands for. -/
def decimal_value (s : List Char) : Nat :=
  s.foldl (fun acc c => acc * 10 + digit_value c) 0

/-- Two licenses have the same logical fields, the four strings taken up to
their terminator. -/
def same_logical_fields (l1 l2 : License) : Prop :=
  l1.serial_number = l2.serial_number ∧
  c_str l1.username = c_str l2.username ∧
  c_str l1.bb_password = c_str l2.bb_password ∧
  c_str l1.access_key = c_str l2.access_key ∧
  c_str l1.gc_password = c_str l2.gc_password ∧
  l1.privileges = l2.privileges ∧
  l1.ban_end_time = l2.ban_end_time

instance (l1 l2 : License) : Decidable (same_logical_fields l1 l2) := by
  unfold same_logical_fields
  exact inferInstance

/-- None of the four strings of the license contains a comma. -/
def comma_free (l : License) : Prop :=
  ',' ∉ c_str l.username ∧ ',' ∉ c_str l.bb_password ∧
  ',' ∉ c_str l.access_key ∧ ',' ∉ c_str l.gc_password

instance (l : License) : Decidable (comma_free l) := by
  unfold comma_free
  exact inferInstance

/-- The text starts with ", " and a character of `tags`: it starts with the
label of one of the parts that can follow. -/
def starts_with_tag (tags : List Char) (text : List Char) : Prop :=
  ∃ c ∈ tags, ∃ rest, text = ',' :: ' ' :: c :: rest

/-- The end of the textual representation, from the privileges on. -/
def str_privileges_part (l : License) : List Char :=
  ", privileges=".toList ++ (Nat.toDigits 10 l.privileges ++
    ((if l.ban_end_time ≠ 0 then
      ", banned-until=".toList ++ Nat.toDigits 10 l.ban_end_time else []) ++ ")".toList))

/-! ## Reachable states and index consistency -/

/-- The records of a backing file have pairwise distinct serial numbers, and
those with a non-empty username have pairwise distinct usernames. -/
def distinct_keys (records : List License) : Prop :=
  (records.map License.serial_number).Nodup ∧
  ((records.filter (fun r => decide r.has_username)).map (fun r => c_str r.username)).Nodup

/-- The registry states reachable after the constructor has loaded `file`:
by `add` of a newly built License object whose serial number and whose
username, if non-empty, are not yet present (the precondition the spec puts on
callers of `add`), by `remove` and by `ban_until`, failed calls included. -/
inductive Reachable (file : Option (List License)) : LicenseManager → Prop where
  | load : Reachable file (LicenseManager.LicenseManager file)
  | add (m : LicenseManager) (L : License) :
      Reachable file m →
      map_find m.serial_number_to_license L.serial_number = none →
      (L.has_username → map_find m.bb_username_to_license (c_str L.username) = none) →
      Reachable file (add (new_License m L).1 (new_License m L).2).2
  | remove (m : LicenseManager) (serial_number : Nat) :
      Reachable file m → Reachable file (remove m serial_number).2
  | ban_until (m : LicenseManager) (serial_number end_time : Nat) :
      Reachable file m → Reachable file (ban_until m serial_number end_time).2

/-- Every object the username index refers to is the object the serial-number
index holds under that object's serial number. -/
def username_index_consistent (m : LicenseManager) : Prop :=
  ∀ e ∈ m.bb_username_to_license,
    map_find m.serial_number_to_license (m.heap e.2).serial_number = some e.2

/-- Every object in the serial-number index with a non-empty username is the
object the username index returns for that username. -/
def serial_index_consistent (m : LicenseManager) : Prop :=
  ∀ e ∈ m.serial_number_to_license, (m.heap e.2).has_username →
    map_find m.bb_username_to_license (c_str (m.heap e.2).username) = some e.2

/-- The username index holds a record only if that record's username is
non-empty. -/
def username_index_nonempty (m : LicenseManager) : Prop :=
  ∀ e ∈ m.bb_username_to_license, (m.heap e.2).has_username

instance (m : LicenseManager) : Decidable (username_index_consistent m) := by
  unfold username_index_consistent
  exact inferInstance

instance (m : LicenseManager) : Decidable (serial_index_consistent m) := by
  unfold serial_index_consistent
  exact inferInstance

instance (m : LicenseManager) : Decidable (username_index_nonempty m) := by
  unfold username_index_nonempty
  exact inferInstance

instance (records : List License) : Decidable (distinct_keys records) := by
  unfold distinct_keys
  exact inferInstance

/-- What the serial-number index and the objects it refers to satisfy in every
reachable state: no key occurs twice, each key is the serial number of its
object, an object with a non-empty username is found under it in the username
index, and every address in use lies below `next`. -/
structure Inv (m : LicenseManager) : Prop where
  nodup : (m.serial_number_to_license.map Prod.fst).Nodup
  key_serial : ∀ e ∈ m.serial_number_to_license, (m.heap e.2).serial_number = e.1
  by_username : ∀ e ∈ m.serial_number_to_license, (m.heap e.2).has_username →
    map_find m.bb_username_to_license (c_str (m.heap e.2).username) = some e.2
  below_next : ∀ e ∈ m.serial_number_to_license, e.2 < m.next

/-- What the username index satisfies in every state reachable from the empty
registry: no key occurs twice, every entry refers to an object with a
non-empty username, stored under that username, which the serial-number index
holds under the object's serial number, and every address lies below `next`. -/
structure InvU (m : LicenseManager) : Prop where
  nodup_u : (m.bb_username_to_license.map Prod.fst).Nodup
  from_serial : ∀ e ∈ m.bb_username_to_license,
    (m.heap e.2).has_username ∧ c_str (m.heap e.2).username = e.1 ∧
    map_find m.serial_number_to_license (m.heap e.2).serial_number = some e.2
  below_next_u : ∀ e ∈ m.bb_username_to_license, e.2 < m.next

/-! ## Example data -/

/-- The license of the spec's concrete scenario. -/
def alice : License :=
  { username := "alice".toList, bb_password := [], serial_number := 100,
    access_key := "ABCDEFGH".toList, gc_password := "pw1".toList,
    privileges := 0, ban_end_time := 0 }

/-- The empty registry in which the caller has built a License object holding
`alice` (at address 0) that it has not added yet. -/
def alice_unregistered : LicenseManager :=
  (new_License (LicenseManager.LicenseManager none) alice).1

/-- A license without a username. -/
def nobody : License :=
  { username := [], bb_password := [], serial_number := 1,
    access_key := "KEY1".toList, gc_password := "pw".toList,
    privileges := 0, ban_end_time := 0 }

/-- The registry reached from the empty one by building a License object that
holds `nobody` and adding it. -/
def nobody_registry : LicenseManager :=
  (add (new_License (LicenseManager.LicenseManager none) nobody).1
    (new_License (LicenseManager.LicenseManager none) nobody).2).2

/-- A license with the serial number of `alice` and a username of its own. -/
def bob_100 : License :=
  { username := "bob".toList, bb_password := [], serial_number := 100,
    access_key := "ZZZZZZZZ".toList, gc_password := [],
    privileges := 0, ban_end_time := 0 }

/-- A license with the username of `alice` and a serial number of its own. -/
def alice_101 : License :=
  { username := "alice".toList, bb_password := [], serial_number := 101,
    access_key := "ZZZZZZZZ".toList, gc_password := [],
    privileges := 0, ban_end_time := 0 }

/-- The registry the constructor builds from a file holding `alice` alone. -/
def alice_registry : LicenseManager :=
  LicenseManager.LicenseManager (some [alice])

/-- The registry that holds `alice`, in which the caller has built a License
object holding `bob_100` (at address 1) that it has not added yet. -/
def alice_registry_with_bob_100 : LicenseManager :=
  (new_License alice_registry bob_100).1

/-- The registry that holds `alice`, in which the caller has built a License
object holding `alice_101` (at address 1) that it has not added yet. -/
def alice_registry_with_alice_101 : LicenseManager :=
  (new_License alice_registry alice_101).1

/-- The empty registry after `add` of a License object holding `alice`. -/
def alice_added : LicenseManager :=
  (add alice_unregistered 0).2

/-- The empty registry after `add` of `alice`, `ban_until(100, 9)` and
`remove(7)`, the last of which fails. -/
def busy_registry : LicenseManager :=
  (remove (ban_until (add (new_License (LicenseManager.LicenseManager none) alice).1
    (new_License (LicenseManager.LicenseManager none) alice).2).2 100 9).2 7).2

/-- A license whose username contains the text of a later part. -/
def license_a_comma : License :=
  { username := "a, bb-password=b".toList, bb_password := [], serial_number := 1,
    access_key := [], gc_password := [], privileges := 0, ban_end_time := 0 }

/-- A license with the username "a" and the bb-password "b". -/
def license_a_b : License :=
  { username := "a".toList, bb_password := "b".toList, serial_number := 1,
    access_key := [], gc_password := [], privileges := 0, ban_end_time := 0 }

/-- A license whose access key is longer than both comparison lengths. -/
def carol : License :=
  { username := "carol".toList, bb_password := [], serial_number := 200,
    access_key := "ABCDEFGHIJKLMN".toList, gc_password := "pw2".toList,
    privileges := 0, ban_end_time := 0 }

/-- The registry the constructor builds from a file holding `carol` alone. -/
def carol_registry : LicenseManager :=
  LicenseManager.LicenseManager (some [carol])

/-- The registry the constructor builds from a file holding `alice` and
`alice_101`, two records with the username "alice". -/
def two_alice_registry : LicenseManager :=
  LicenseManager.LicenseManager (some [alice, alice_101])

/-! ## C strings: what `strcmp` and `strncmp` decide -/

theorem char_diff_eq_zero (c d : Char) :
    ((c.toNat : Int) - (d.toNat : Int) = 0) ↔ c = d := by
  constructor
  · intro h
    have h1 : c.toNat = d.toNat := by omega
    have h2 := congrArg Char.ofNat h1
    simpa using h2
  · rintro rfl
    simp

theorem c_str_nil : c_str [] = [] := rfl

theorem c_str_cons (c : Char) (s : List Char) :
    c_str (c :: s) = if c = NUL then [] else c :: c_str s := by
  unfold c_str
  rw [List.takeWhile_cons]
  by_cases h : c = NUL <;> simp [h]

/-- `strncmp` returns 0 exactly when the two C strings, terminators included,
agree on their first `n` bytes. -/
theorem strncmp_eq_zero_iff (n : Nat) : ∀ s1 s2 : List Char,
    strncmp s1 s2 n = 0 ↔
      (c_str s1 ++ [NUL]).take n = (c_str s2 ++ [NUL]).take n := by
  induction n with
  | zero => intro s1 s2; simp [strncmp]
  | succ n ih =>
    intro s1 s2
    cases s1 with
    | nil =>
      cases s2 with
      | nil => simp [strncmp]
      | cons d s2 =>
        by_cases hd : d = NUL
        · simp [strncmp, c_str_cons, c_str_nil, hd]
        · have hd2 : ¬ NUL = d := fun h => hd h.symm
          simp [strncmp, c_str_cons, c_str_nil, hd, hd2, char_diff_eq_zero]
    | cons c s1 =>
      cases s2 with
      | nil =>
        by_cases hc : c = NUL
        · simp [strncmp, c_str_cons, c_str_nil, hc]
        · simp [strncmp, c_str_cons, c_str_nil, hc, char_diff_eq_zero]
      | cons d s2 =>
        by_cases hcd : c = d
        · subst hcd
          by_cases hc : c = NUL
          · simp [strncmp, c_str_cons, hc]
          · simp [strncmp, c_str_cons, hc, ih]
        · by_cases hc : c = NUL
          · have hd : ¬ d = NUL := fun h => hcd (hc.trans h.symm)
            have hd2 : ¬ NUL = d := fun h => hd h.symm
            simp [strncmp, c_str_cons, hc, hd, hd2, char_diff_eq_zero]
          · by_cases hd : d = NUL
            · simp [strncmp, c_str_cons, hc, hd, char_diff_eq_zero]
            · simp [strncmp, c_str_cons, hc, hd, hcd, char_diff_eq_zero]

/-- `strcmp` returns 0 exactly when the two C strings are equal. -/
theorem strcmp_eq_zero_iff : ∀ s1 s2 : List Char,
    strcmp s1 s2 = 0 ↔ c_str s1 = c_str s2 := by
  intro s1
  induction s1 with
  | nil =>
    intro s2
    cases s2 with
    | nil => simp [strcmp]
    | cons d s2 =>
      by_cases hd : d = NUL
      · simp [strcmp, c_str_cons, c_str_nil, hd]
      · have hd2 : ¬ NUL = d := fun h => hd h.symm
        simp [strcmp, c_str_cons, c_str_nil, hd, hd2, char_diff_eq_zero]
  | cons c s1 ih =>
    intro s2
    cases s2 with
    | nil =>
      by_cases hc : c = NUL
      · simp [strcmp, c_str_cons, c_str_nil, hc]
      · simp [strcmp, c_str_cons, c_str_nil, hc, char_diff_eq_zero]
    | cons d s2 =>
      by_cases hcd : c = d
      · subst hcd
        by_cases hc : c = NUL
        · simp [strcmp, c_str_cons, hc]
        · simp [strcmp, c_str_cons, hc, ih]
      · by_cases hc : c = NUL
        · have hd : ¬ d = NUL := fun h => hcd (hc.trans h.symm)
          have hd2 : ¬ NUL = d := fun h => hd h.symm
          simp [strcmp, c_str_cons, hc, hd, hd2, char_diff_eq_zero]
        · by_cases hd : d = NUL
          · simp [strcmp, c_str_cons, hc, hd, char_diff_eq_zero]
          · simp [strcmp, c_str_cons, hc, hd, hcd, char_diff_eq_zero]

theorem strcmp_self (s : List Char) : strcmp s s = 0 :=
  (strcmp_eq_zero_iff s s).2 rfl

theorem password_differs_none (stored : List Char) :
    password_differs stored none = false := rfl

theorem password_differs_self (stored : List Char) :
    password_differs stored (some stored) = false := by
  simp [password_differs, strcmp_self]

/-- Two strings that agree on their first `n` positions are equal for `strncmp`. -/
theorem take_terminated_of_take (n : Nat) (x y : List Char)
    (h : x.take n = y.take n) : (x ++ [NUL]).take n = (y ++ [NUL]).take n := by
  by_cases hx : n ≤ x.length
  · have hy : n ≤ y.length := by
      have h1 := congrArg List.length h
      simp [List.length_take] at h1
      omega
    rw [List.take_append_of_le_length hx, List.take_append_of_le_length hy, h]
  · have hx2 : x.take n = x := List.take_of_length_le (by omega)
    have hy : y.length < n := by
      have h1 := congrArg List.length h
      simp [List.length_take] at h1
      omega
    have hy2 : y.take n = y := List.take_of_length_le (by omega)
    rw [hx2, hy2] at h
    rw [h]

/-- Two strings that differ at a position before `n` and before the end of
both are different for `strncmp`. -/
theorem take_terminated_ne (n i : Nat) (x y : List Char) (hi : i < n)
    (hx : i < x.length) (hy : i < y.length) (hne : x.get? i ≠ y.get? i) :
    (x ++ [NUL]).take n ≠ (y ++ [NUL]).take n := by
  intro h
  have h1 := congrArg (fun l => l.get? i) h
  simp only [List.get?_eq_getElem?, List.getElem?_take, hi, if_true,
    List.getElem?_append_left hx, List.getElem?_append_left hy] at h1
  exact hne (by simpa [List.get?_eq_getElem?] using h1)

/-! ## Maps: lookup after `emplace` and `erase` -/

section MapLemmas
variable {K V : Type} [DecidableEq K]

theorem map_find_append (m1 m2 : List (K × V)) (key : K) :
    map_find (m1 ++ m2) key =
      match map_find m1 key with
      | some v => some v
      | none => map_find m2 key := by
  induction m1 with
  | nil => simp [map_find]
  | cons e rest ih =>
    obtain ⟨k, v⟩ := e
    by_cases h : k = key
    · simp [map_find, h]
    · simp [map_find, h, ih]

theorem map_emplace_of_none (m : List (K × V)) (key : K) (value : V)
    (h : map_find m key = none) : map_emplace m key value = m ++ [(key, value)] := by
  simp [map_emplace, h]

theorem map_emplace_of_some (m : List (K × V)) (key : K) (value v : V)
    (h : map_find m key = some v) : map_emplace m key value = m := by
  simp [map_emplace, h]

theorem map_find_emplace_self (m : List (K × V)) (key : K) (value : V)
    (h : map_find m key = none) : map_find (map_emplace m key value) key = some value := by
  rw [map_emplace_of_none m key value h, map_find_append, h]
  simp [map_find]

theorem map_find_emplace_ne (m : List (K × V)) (key key2 : K) (value : V)
    (h : key ≠ key2) : map_find (map_emplace m key value) key2 = map_find m key2 := by
  cases hf : map_find m key with
  | some v => rw [map_emplace_of_some m key value v hf]
  | none =>
    rw [map_emplace_of_none m key value hf, map_find_append]
    cases map_find m key2 <;> simp [map_find, h]

theorem map_find_emplace_of_some (m : List (K × V)) (key key2 : K) (value v : V)
    (h : map_find m key2 = some v) : map_find (map_emplace m key value) key2 = some v := by
  by_cases hk : key = key2
  · subst hk
    rw [map_emplace_of_some m key value v h, h]
  · rw [map_find_emplace_ne m key key2 value hk, h]

theorem map_erase_cons (k : K) (v : V) (rest : List (K × V)) (key : K) :
    map_erase ((k, v) :: rest) key =
      if k = key then map_erase rest key else (k, v) :: map_erase rest key := by
  by_cases h : k = key <;> simp [map_erase, List.filter_cons, h]

theorem map_find_cons (k : K) (v : V) (rest : List (K × V)) (key : K) :
    map_find ((k, v) :: rest) key = if k = key then some v else map_find rest key := rfl

theorem map_find_erase_self (m : List (K × V)) (key : K) :
    map_find (map_erase m key) key = none := by
  induction m with
  | nil => rfl
  | cons e rest ih =>
    obtain ⟨k, v⟩ := e
    rw [map_erase_cons]
    by_cases h : k = key
    · rw [if_pos h]; exact ih
    · rw [if_neg h, map_find_cons, if_neg h]; exact ih

theorem map_find_erase_ne (m : List (K × V)) (key key2 : K) (h : key ≠ key2) :
    map_find (map_erase m key) key2 = map_find m key2 := by
  induction m with
  | nil => rfl
  | cons e rest ih =>
    obtain ⟨k, v⟩ := e
    rw [map_erase_cons]
    by_cases hk : k = key
    · have hk2 : ¬ k = key2 := fun h2 => h (hk.symm.trans h2)
      rw [if_pos hk, map_find_cons, if_neg hk2]; exact ih
    · rw [if_neg hk, map_find_cons, map_find_cons, ih]

theorem mem_of_map_find (m : List (K × V)) (key : K) (v : V)
    (h : map_find m key = some v) : (key, v) ∈ m := by
  induction m with
  | nil => simp [map_find] at h
  | cons e rest ih =>
    obtain ⟨k, w⟩ := e
    by_cases hk : k = key
    · simp [map_find, hk] at h
      simp [hk, h]
    · simp [map_find, hk] at h
      exact List.mem_cons_of_mem _ (ih h)

theorem map_find_eq_none_iff (m : List (K × V)) (key : K) :
    map_find m key = none ↔ key ∉ m.map Prod.fst := by
  induction m with
  | nil => simp [map_find]
  | cons e rest ih =>
    obtain ⟨k, w⟩ := e
    by_cases hk : k = key
    · simp [map_find, hk]
    · have hk2 : ¬ key = k := fun h => hk h.symm
      simp [map_find, hk, hk2] at ih ⊢
      exact ih

theorem map_find_of_mem (m : List (K × V)) (e : K × V)
    (hnd : (m.map Prod.fst).Nodup) (h : e ∈ m) : map_find m e.1 = some e.2 := by
  induction m with
  | nil => simp at h
  | cons e2 rest ih =>
    obtain ⟨k, w⟩ := e2
    simp only [List.map_cons, List.nodup_cons] at hnd
    rcases List.mem_cons.1 h with h1 | h1
    · subst h1
      simp [map_find]
    · have hk : ¬ k = e.1 := by
        intro hk
        apply hnd.1
        rw [hk]
        exact List.mem_map_of_mem Prod.fst h1
      simp [map_find, hk, ih hnd.2 h1]

theorem map_size_emplace_of_none (m : List (K × V)) (key : K) (value : V)
    (h : map_find m key = none) :
    map_size (map_emplace m key value) = map_size m + 1 := by
  simp [map_size, map_emplace_of_none m key value h]

theorem map_erase_of_not_mem (m : List (K × V)) (key : K)
    (h : key ∉ m.map Prod.fst) : map_erase m key = m := by
  induction m with
  | nil => rfl
  | cons e rest ih =>
    obtain ⟨k, v⟩ := e
    simp only [List.map_cons, List.mem_cons, not_or] at h
    have hk : ¬ k = key := fun h2 => h.1 h2.symm
    rw [map_erase_cons, if_neg hk, ih h.2]

theorem map_size_erase (m : List (K × V)) (key : K) (v : V)
    (hnd : (m.map Prod.fst).Nodup) (h : map_find m key = some v) :
    map_size (map_erase m key) + 1 = map_size m := by
  induction m with
  | nil => simp [map_find] at h
  | cons e rest ih =>
    obtain ⟨k, w⟩ := e
    simp only [List.map_cons, List.nodup_cons] at hnd
    rw [map_erase_cons]
    by_cases hk : k = key
    · rw [if_pos hk, map_erase_of_not_mem rest key (hk ▸ hnd.1)]
      simp [map_size]
    · rw [map_find_cons, if_neg hk] at h
      have h2 := ih hnd.2 h
      rw [if_neg hk]
      simp only [map_size, List.length_cons] at h2 ⊢
      omega

end MapLemmas

/-! ## The invariant of reachable states -/

theorem heap_set_self (heap : Nat → License) (p : Nat) (l : License) :
    heap_set heap p l p = l := by
  simp [heap_set]

theorem heap_set_ne (heap : Nat → License) (p q : Nat) (l : License) (h : q ≠ p) :
    heap_set heap p l q = heap q := by
  simp [heap_set, h]

theorem has_username_iff (l : License) : l.has_username ↔ c_str l.username ≠ [] := by
  unfold License.has_username
  cases hl : l.username with
  | nil => simp [c_str_nil]
  | cons c s =>
    rw [c_str_cons]
    by_cases hc : c = NUL <;> simp [hc]

theorem nodup_keys_emplace {K V : Type} [DecidableEq K] (m : List (K × V)) (key : K)
    (value : V) (h : (m.map Prod.fst).Nodup) :
    ((map_emplace m key value).map Prod.fst).Nodup := by
  cases hf : map_find m key with
  | some v => rw [map_emplace_of_some m key value v hf]; exact h
  | none =>
    rw [map_emplace_of_none m key value hf, List.map_append, List.nodup_append]
    refine ⟨h, by simp, ?_⟩
    intro a ha hb
    simp only [List.map_cons, List.map_nil, List.mem_singleton] at hb
    subst hb
    exact (map_find_eq_none_iff m a).1 hf ha

theorem nodup_keys_erase {K V : Type} [DecidableEq K] (m : List (K × V)) (key : K)
    (h : (m.map Prod.fst).Nodup) : ((map_erase m key).map Prod.fst).Nodup := by
  unfold map_erase
  exact List.Nodup.sublist (List.Sublist.map _ (List.filter_sublist _)) h

theorem Inv_init (file : Option (List License)) : Inv (LicenseManager.init file) := by
  constructor <;> simp [LicenseManager.init]

/-- Insertion of a newly built object under a serial number that is not yet
present keeps the invariant, whether or not the username index receives it,
as long as it receives it when the username is non-empty and not yet present. -/
theorem Inv_insert (m : LicenseManager) (L : License) (file2 : Option (List License))
    (uidx : List (List Char × Nat)) (hinv : Inv m)
    (hs : map_find m.serial_number_to_license L.serial_number = none)
    (hu : L.has_username → map_find uidx (c_str L.username) = some m.next)
    (hpres : ∀ k v, map_find m.bb_username_to_license k = some v → map_find uidx k = some v) :
    Inv { heap := heap_set m.heap m.next L, next := m.next + 1, file := file2,
          bb_username_to_license := uidx,
          serial_number_to_license :=
            map_emplace m.serial_number_to_license L.serial_number m.next } := by
  have hold : ∀ e ∈ m.serial_number_to_license, heap_set m.heap m.next L e.2 = m.heap e.2 :=
    fun e he => heap_set_ne _ _ _ _ (Nat.ne_of_lt (hinv.below_next e he))
  constructor
  · exact nodup_keys_emplace _ _ _ hinv.nodup
  · intro e he
    simp only [map_emplace_of_none _ _ _ hs, List.mem_append, List.mem_singleton] at he
    rcases he with he | he
    · simp only [hold e he]
      exact hinv.key_serial e he
    · subst he
      simp [heap_set_self]
  · intro e he
    simp only [map_emplace_of_none _ _ _ hs, List.mem_append, List.mem_singleton] at he
    rcases he with he | he
    · simp only [hold e he]
      intro hn
      exact hpres _ _ (hinv.by_username e he hn)
    · subst he
      simp only [heap_set_self]
      exact hu
  · intro e he
    simp only [map_emplace_of_none _ _ _ hs, List.mem_append, List.mem_singleton] at he
    rcases he with he | he
    · exact Nat.lt_succ_of_lt (hinv.below_next e he)
    · subst he
      exact Nat.lt_succ_self _

theorem load_license_eq (m : LicenseManager) (r : License) :
    load_license m r =
      { heap := heap_set m.heap m.next r, next := m.next + 1, file := m.file,
        bb_username_to_license :=
          map_emplace m.bb_username_to_license (c_str r.username) m.next,
        serial_number_to_license :=
          map_emplace m.serial_number_to_license r.serial_number m.next } := by
  simp [load_license, new_License, heap_set_self]

theorem add_new_eq (m : LicenseManager) (L : License) :
    (add (new_License m L).1 (new_License m L).2).2 =
      { heap := heap_set m.heap m.next L, next := m.next + 1,
        file := some ((map_emplace m.serial_number_to_license L.serial_number m.next).map
          (fun it => heap_set m.heap m.next L it.2)),
        bb_username_to_license :=
          if L.has_username then
            map_emplace m.bb_username_to_license (c_str L.username) m.next
          else m.bb_username_to_license,
        serial_number_to_license :=
          map_emplace m.serial_number_to_license L.serial_number m.next } := by
  by_cases hn : L.has_username <;>
    simp [add, new_License, heap_set_self, save_locked, hn]

theorem Inv_load_license (m : LicenseManager) (r : License) (hinv : Inv m)
    (hs : map_find m.serial_number_to_license r.serial_number = none)
    (hu : r.has_username → map_find m.bb_username_to_license (c_str r.username) = none) :
    Inv (load_license m r) := by
  rw [load_license_eq]
  apply Inv_insert m r m.file _ hinv hs
  · intro hn
    exact map_find_emplace_self _ _ _ (hu hn)
  · intro k v hk
    exact map_find_emplace_of_some _ _ _ _ _ hk

theorem Inv_add_new (m : LicenseManager) (L : License) (hinv : Inv m)
    (hs : map_find m.serial_number_to_license L.serial_number = none)
    (hu : L.has_username → map_find m.bb_username_to_license (c_str L.username) = none) :
    Inv (add (new_License m L).1 (new_License m L).2).2 := by
  rw [add_new_eq]
  apply Inv_insert m L _ _ hinv hs
  · intro hn
    rw [if_pos hn]
    exact map_find_emplace_self _ _ _ (hu hn)
  · intro k v hk
    by_cases hn : L.has_username
    · rw [if_pos hn]
      exact map_find_emplace_of_some _ _ _ _ _ hk
    · rw [if_neg hn]
      exact hk

theorem distinct_keys_cons (r : License) (rs : List License)
    (h : distinct_keys (r :: rs)) :
    distinct_keys rs ∧
    (∀ r2 ∈ rs, r.serial_number ≠ r2.serial_number) ∧
    (∀ r2 ∈ rs, r2.has_username → c_str r.username ≠ c_str r2.username) := by
  obtain ⟨h1, h2⟩ := h
  simp only [List.map_cons, List.nodup_cons] at h1
  by_cases hn : r.has_username
  · simp only [List.filter_cons, hn, decide_True, if_true, List.map_cons,
      List.nodup_cons] at h2
    refine ⟨⟨h1.2, h2.2⟩, ?_, ?_⟩
    · intro r2 hr2 heq
      exact h1.1 (heq ▸ List.mem_map_of_mem License.serial_number hr2)
    · intro r2 hr2 hn2 heq
      apply h2.1
      rw [heq]
      have hmem : r2 ∈ rs.filter (fun r => decide r.has_username) :=
        List.mem_filter.2 ⟨hr2, decide_eq_true hn2⟩
      exact List.mem_map_of_mem (fun r => c_str r.username) hmem
  · simp only [List.filter_cons, hn, decide_False] at h2
    refine ⟨⟨h1.2, by simpa using h2⟩, ?_, ?_⟩
    · intro r2 hr2 heq
      exact h1.1 (heq ▸ List.mem_map_of_mem License.serial_number hr2)
    · intro r2 _ hn2 heq
      have h3 : c_str r.username = [] := by
        by_contra h4
        exact hn ((has_username_iff r).2 h4)
      exact (has_username_iff r2).1 hn2 (heq ▸ h3)

theorem Inv_foldl_load_license (rs : List License) : ∀ m : LicenseManager, Inv m →
    distinct_keys rs →
    (∀ r ∈ rs, map_find m.serial_number_to_license r.serial_number = none) →
    (∀ r ∈ rs, r.has_username →
      map_find m.bb_username_to_license (c_str r.username) = none) →
    Inv (rs.foldl load_license m) := by
  induction rs with
  | nil => intro m h _ _ _; exact h
  | cons r rs ih =>
    intro m hinv hd hs hu
    obtain ⟨hd2, hser, hname⟩ := distinct_keys_cons r rs hd
    rw [List.foldl_cons]
    apply ih
    · exact Inv_load_license m r hinv (hs r (List.mem_cons_self _ _))
        (hu r (List.mem_cons_self _ _))
    · exact hd2
    · intro r2 hr2
      rw [load_license_eq]
      simp only
      rw [map_find_emplace_ne _ _ _ _ (hser r2 hr2)]
      exact hs r2 (List.mem_cons_of_mem _ hr2)
    · intro r2 hr2 hn2
      rw [load_license_eq]
      simp only
      rw [map_find_emplace_ne _ _ _ _ (hname r2 hr2 hn2)]
      exact hu r2 (List.mem_cons_of_mem _ hr2) hn2

theorem Inv_load (file : Option (List License))
    (hfile : ∀ records, file = some records → distinct_keys records) :
    Inv (LicenseManager.LicenseManager file) := by
  cases file with
  | none => exact Inv_init none
  | some records =>
    simp only [LicenseManager.LicenseManager, load_vector_file]
    apply Inv_foldl_load_license records _ (Inv_init _) (hfile records rfl)
    · intro r _; rfl
    · intro r _ _; rfl

theorem remove_eq (m : LicenseManager) (s l : Nat)
    (h : map_find m.serial_number_to_license s = some l) :
    remove m s = (Except.ok (),
      { heap := m.heap, next := m.next,
        file := some ((map_erase m.serial_number_to_license (m.heap l).serial_number).map
          (fun it => m.heap it.2)),
        bb_username_to_license :=
          if (m.heap l).has_username then
            map_erase m.bb_username_to_license (c_str (m.heap l).username)
          else m.bb_username_to_license,
        serial_number_to_license :=
          map_erase m.serial_number_to_license (m.heap l).serial_number }) := by
  by_cases hn : (m.heap l).has_username <;>
    simp [remove, map_at, h, save_locked, hn]

theorem remove_eq_of_none (m : LicenseManager) (s : Nat)
    (h : map_find m.serial_number_to_license s = none) :
    remove m s = (Except.error Exception.out_of_range, m) := by
  simp [remove, map_at, h]

theorem ban_until_eq (m : LicenseManager) (s p t : Nat)
    (h : map_find m.serial_number_to_license s = some p) :
    ban_until m s t = (Except.ok (),
      { heap := heap_set m.heap p { m.heap p with ban_end_time := t }, next := m.next,
        file := some (m.serial_number_to_license.map
          (fun it => heap_set m.heap p { m.heap p with ban_end_time := t } it.2)),
        bb_username_to_license := m.bb_username_to_license,
        serial_number_to_license := m.serial_number_to_license }) := by
  simp [ban_until, map_at, h, save_locked]

theorem ban_until_eq_of_none (m : LicenseManager) (s t : Nat)
    (h : map_find m.serial_number_to_license s = none) :
    ban_until m s t = (Except.error Exception.out_of_range, m) := by
  simp [ban_until, map_at, h]

theorem mem_of_mem_map_erase {K V : Type} [DecidableEq K] (m : List (K × V)) (key : K)
    (e : K × V) (h : e ∈ map_erase m key) : e ∈ m ∧ e.1 ≠ key := by
  unfold map_erase at h
  have h2 := List.mem_filter.1 h
  exact ⟨h2.1, by simpa using h2.2⟩

theorem Inv_remove (m : LicenseManager) (s : Nat) (hinv : Inv m) :
    Inv (remove m s).2 := by
  cases hf : map_find m.serial_number_to_license s with
  | none => rw [remove_eq_of_none m s hf]; exact hinv
  | some l =>
    rw [remove_eq m s l hf]
    have hl := mem_of_map_find _ _ _ hf
    constructor
    · exact nodup_keys_erase _ _ hinv.nodup
    · intro e he
      exact hinv.key_serial e (mem_of_mem_map_erase _ _ e he).1
    · intro e he hn
      obtain ⟨hmem, hne⟩ := mem_of_mem_map_erase _ _ e he
      have h1 := hinv.by_username e hmem hn
      by_cases hnl : (m.heap l).has_username
      · simp only [if_pos hnl]
        rw [map_find_erase_ne]
        · exact h1
        · intro heq
          have h2 := hinv.by_username (s, l) hl hnl
          simp only at h2
          rw [heq, h1] at h2
          have h3 : e.2 = l := Option.some.inj h2
          apply hne
          rw [← hinv.key_serial e hmem, h3]
      · simp only [if_neg hnl]
        exact h1
    · intro e he
      exact hinv.below_next e (mem_of_mem_map_erase _ _ e he).1

theorem heap_set_ban_serial (heap : Nat → License) (p t q : Nat) :
    (heap_set heap p { heap p with ban_end_time := t } q).serial_number =
      (heap q).serial_number := by
  by_cases h : q = p
  · subst h; simp [heap_set]
  · simp [heap_set, h]

theorem heap_set_ban_username (heap : Nat → License) (p t q : Nat) :
    (heap_set heap p { heap p with ban_end_time := t } q).username =
      (heap q).username := by
  by_cases h : q = p
  · subst h; simp [heap_set]
  · simp [heap_set, h]

theorem Inv_ban_until (m : LicenseManager) (s t : Nat) (hinv : Inv m) :
    Inv (ban_until m s t).2 := by
  cases hf : map_find m.serial_number_to_license s with
  | none => rw [ban_until_eq_of_none m s t hf]; exact hinv
  | some p =>
    rw [ban_until_eq m s p t hf]
    constructor
    · exact hinv.nodup
    · intro e he
      simp only [heap_set_ban_serial]
      exact hinv.key_serial e he
    · intro e he
      simp only [License.has_username, heap_set_ban_username]
      exact hinv.by_username e he
    · exact hinv.below_next

/-- Every state reachable from a backing file with distinct keys satisfies the
invariant. -/
theorem Inv_of_reachable (file : Option (List License)) (m : LicenseManager)
    (hfile : ∀ records, file = some records → distinct_keys records)
    (hr : Reachable file m) : Inv m := by
  induction hr with
  | load => exact Inv_load file hfile
  | add m L _ hs hu ih => exact Inv_add_new m L ih hs hu
  | remove m s _ ih => exact Inv_remove m s ih
  | ban_until m s t _ ih => exact Inv_ban_until m s t ih

theorem nodup_foldl_load_license (rs : List License) : ∀ m : LicenseManager,
    (m.serial_number_to_license.map Prod.fst).Nodup →
    ((rs.foldl load_license m).serial_number_to_license.map Prod.fst).Nodup := by
  induction rs with
  | nil => intro m h; exact h
  | cons r rs ih =>
    intro m h
    rw [List.foldl_cons]
    apply ih
    rw [load_license_eq]
    exact nodup_keys_emplace _ _ _ h

/-- The serial-number index never holds a key twice, whatever the backing file
held. -/
theorem nodup_of_reachable (file : Option (List License)) (m : LicenseManager)
    (hr : Reachable file m) : (m.serial_number_to_license.map Prod.fst).Nodup := by
  induction hr with
  | load =>
    cases file with
    | none => simp [LicenseManager.LicenseManager, load_vector_file, LicenseManager.init]
    | some records =>
      simp only [LicenseManager.LicenseManager, load_vector_file]
      apply nodup_foldl_load_license
      simp [LicenseManager.init]
  | add m L _ _ _ ih =>
    rw [add_new_eq]
    exact nodup_keys_emplace _ _ _ ih
  | remove m s _ ih =>
    cases hf : map_find m.serial_number_to_license s with
    | none => rw [remove_eq_of_none m s hf]; exact ih
    | some l => rw [remove_eq m s l hf]; exact nodup_keys_erase _ _ ih
  | ban_until m s t _ ih =>
    cases hf : map_find m.serial_number_to_license s with
    | none => rw [ban_until_eq_of_none m s t hf]; exact ih
    | some p => rw [ban_until_eq m s p t hf]; exact ih

/-! ## Verification by serial number -/

/-- What `verify_pc` returns once the lookup has found the object at `p`. -/
theorem verify_pc_of_find (m : LicenseManager) (s p : Nat) (access_key : List Char)
    (password : Option (List Char)) (now : Nat)
    (h : map_find m.serial_number_to_license s = some p) :
    verify_pc m s access_key password now =
      if (c_str (m.heap p).access_key ++ [NUL]).take 8 ≠ (c_str access_key ++ [NUL]).take 8 then
        Except.error incorrect_access_key
      else if password_differs (m.heap p).gc_password password then
        Except.error incorrect_password
      else if (m.heap p).ban_end_time ≠ 0 ∧ (m.heap p).ban_end_time ≥ now then
        Except.error user_is_banned
      else Except.ok p := by
  simp only [verify_pc, map_at, h, ne_eq, strncmp_eq_zero_iff, incorrect_access_key,
    incorrect_password, user_is_banned]

/-- What `verify_gc` returns once the lookup has found the object at `p`. -/
theorem verify_gc_of_find (m : LicenseManager) (s p : Nat) (access_key : List Char)
    (password : Option (List Char)) (now : Nat)
    (h : map_find m.serial_number_to_license s = some p) :
    verify_gc m s access_key password now =
      if (c_str (m.heap p).access_key ++ [NUL]).take 12 ≠ (c_str access_key ++ [NUL]).take 12 then
        Except.error incorrect_access_key
      else if password_differs (m.heap p).gc_password password then
        Except.error incorrect_password
      else if (m.heap p).ban_end_time ≠ 0 ∧ (m.heap p).ban_end_time ≥ now then
        Except.error user_is_banned
      else Except.ok p := by
  simp only [verify_gc, map_at, h, ne_eq, strncmp_eq_zero_iff, incorrect_access_key,
    incorrect_password, user_is_banned]

/-- What `verify_bb` returns once the lookup has found the object at `p`. -/
theorem verify_bb_of_find (m : LicenseManager) (username : List Char) (p : Nat)
    (password : Option (List Char)) (now : Nat)
    (h : map_find m.bb_username_to_license (c_str username) = some p) :
    verify_bb m username password now =
      if password_differs (m.heap p).bb_password password then
        Except.error incorrect_password
      else if (m.heap p).ban_end_time ≠ 0 ∧ (m.heap p).ban_end_time ≥ now then
        Except.error user_is_banned
      else Except.ok p := by
  simp only [verify_bb, map_at, h, incorrect_password, user_is_banned]

/-- The three checks of `verify_pc` and `verify_gc` pass for the stored key
prefix, an absent or stored password, and a license that is not banned. -/
theorem verify_ok_of_credentials (m : LicenseManager) (p : Nat)
    (access_key : List Char) (password : Option (List Char)) (now : Nat)
    (hheld : map_find m.serial_number_to_license (m.heap p).serial_number = some p)
    (hban : (m.heap p).ban_end_time = 0 ∨ (m.heap p).ban_end_time < now)
    (hpw : password = none ∨ password = some (m.heap p).gc_password) :
    ((c_str (m.heap p).access_key ++ [NUL]).take 8 = (c_str access_key ++ [NUL]).take 8 →
      verify_pc m (m.heap p).serial_number access_key password now = Except.ok p) ∧
    ((c_str (m.heap p).access_key ++ [NUL]).take 12 = (c_str access_key ++ [NUL]).take 12 →
      verify_gc m (m.heap p).serial_number access_key password now = Except.ok p) := by
  have hpd : password_differs (m.heap p).gc_password password = false := by
    rcases hpw with h | h
    · rw [h]; rfl
    · rw [h]; exact password_differs_self _
  have hnb : ¬ ((m.heap p).ban_end_time ≠ 0 ∧ (m.heap p).ban_end_time ≥ now) := by
    rintro ⟨h0, h1⟩
    rcases hban with h | h
    · exact h0 h
    · omega
  constructor
  · intro hk
    rw [verify_pc_of_find m _ p access_key password now hheld]
    simp [hk, hpd, hnb]
  · intro hk
    rw [verify_gc_of_find m _ p access_key password now hheld]
    simp [hk, hpd, hnb]

/-- C1: in every registry state, for a license `L` held in the serial-number
index (the object at `p`) that is not currently banned, an access key that
agrees with the stored one over the comparison length as `strncmp` compares
(8 bytes for `verify_pc`, 12 for `verify_gc`, terminator included) and a
password that is absent or equal to `L.gc_password`, verification with
`L.serial_number` succeeds and returns that object, whose serial number is the
one asked for. -/
theorem verify_succeeds_with_correct_credentials (m : LicenseManager) (p : Nat)
    (L : License) (access_key : List Char) (password : Option (List Char)) (now : Nat)
    (hL : m.heap p = L)
    (hheld : map_find m.serial_number_to_license L.serial_number = some p)
    (hban : L.ban_end_time = 0 ∨ L.ban_end_time < now)
    (hpw : password = none ∨ password = some L.gc_password) :
    ((c_str L.access_key ++ [NUL]).take 8 = (c_str access_key ++ [NUL]).take 8 →
      verify_pc m L.serial_number access_key password now = Except.ok p ∧
      (m.heap p).serial_number = L.serial_number) ∧
    ((c_str L.access_key ++ [NUL]).take 12 = (c_str access_key ++ [NUL]).take 12 →
      verify_gc m L.serial_number access_key password now = Except.ok p ∧
      (m.heap p).serial_number = L.serial_number) := by
  subst hL
  have h := verify_ok_of_credentials m p access_key password now
    hheld hban hpw
  exact ⟨fun hk => ⟨h.1 hk, rfl⟩, fun hk => ⟨h.2 hk, rfl⟩⟩

/-- Witness of C1: the license `alice` is verified with its own key and password at time 5. -/
theorem verify_succeeds_with_correct_credentials_witness :
    (verify_pc alice_registry 100 "ABCDEFGH".toList (some "pw1".toList) 5 = Except.ok 0 ∧
      (alice_registry.heap 0).serial_number = 100) ∧
    (verify_gc alice_registry 100 "ABCDEFGH".toList (some "pw1".toList) 5 = Except.ok 0 ∧
      (alice_registry.heap 0).serial_number = 100) :=
  have h := verify_succeeds_with_correct_credentials alice_registry 0 alice
    "ABCDEFGH".toList (some "pw1".toList) 5 (by decide) (by decide) (by decide) (by decide)
  ⟨h.1 (by decide), h.2 (by decide)⟩

/-- C2: the access key is compared over a prefix only.  For a registered
license `L` (the object at `p`, banned or not) and any password: a supplied key
that differs from the stored one at a position `i` below the comparison length
(8 for `verify_pc`, 12 for `verify_gc`) and before the end of both strings
makes verification fail with the "incorrect access key" error; and for a
supplied key that agrees with the stored one at every position below the
comparison length the access-key check does not fail: the call does not throw
"incorrect access key", its outcome is decided by the password and the ban
alone ("incorrect password", else "user is banned", else the object), and it
is the outcome of the call with the stored key itself. -/
theorem access_key_comparison_is_prefix_only (m : LicenseManager) (p : Nat)
    (L : License) (access_key : List Char) (password : Option (List Char)) (now : Nat)
    (hL : m.heap p = L)
    (hreg : map_find m.serial_number_to_license L.serial_number = some p) :
    (∀ i, i < 8 → i < (c_str access_key).length → i < (c_str L.access_key).length →
      (c_str access_key).get? i ≠ (c_str L.access_key).get? i →
      verify_pc m L.serial_number access_key password now =
        Except.error incorrect_access_key) ∧
    (∀ i, i < 12 → i < (c_str access_key).length → i < (c_str L.access_key).length →
      (c_str access_key).get? i ≠ (c_str L.access_key).get? i →
      verify_gc m L.serial_number access_key password now =
        Except.error incorrect_access_key) ∧
    ((c_str access_key).take 8 = (c_str L.access_key).take 8 →
      verify_pc m L.serial_number access_key password now ≠
        Except.error incorrect_access_key ∧
      verify_pc m L.serial_number access_key password now =
        (if password_differs L.gc_password password then Except.error incorrect_password
        else if L.ban_end_time ≠ 0 ∧ L.ban_end_time ≥ now then Except.error user_is_banned
        else Except.ok p) ∧
      verify_pc m L.serial_number access_key password now =
        verify_pc m L.serial_number L.access_key password now) ∧
    ((c_str access_key).take 12 = (c_str L.access_key).take 12 →
      verify_gc m L.serial_number access_key password now ≠
        Except.error incorrect_access_key ∧
      verify_gc m L.serial_number access_key password now =
        (if password_differs L.gc_password password then Except.error incorrect_password
        else if L.ban_end_time ≠ 0 ∧ L.ban_end_time ≥ now then Except.error user_is_banned
        else Except.ok p) ∧
      verify_gc m L.serial_number access_key password now =
        verify_gc m L.serial_number L.access_key password now) := by
  subst hL
  have hne : ∀ r : Except Exception Nat,
      r = (if password_differs (m.heap p).gc_password password then
          Except.error incorrect_password
        else if (m.heap p).ban_end_time ≠ 0 ∧ (m.heap p).ban_end_time ≥ now then
          Except.error user_is_banned
        else Except.ok p) →
      r ≠ Except.error incorrect_access_key := by
    intro r hr hbad
    rw [hbad] at hr
    by_cases h1 : password_differs (m.heap p).gc_password password = true
    · rw [if_pos h1] at hr
      exact absurd (Except.error.inj hr) (by decide)
    · rw [if_neg h1] at hr
      by_cases h2 : (m.heap p).ban_end_time ≠ 0 ∧ (m.heap p).ban_end_time ≥ now
      · rw [if_pos h2] at hr
        exact absurd (Except.error.inj hr) (by decide)
      · rw [if_neg h2] at hr
        exact Except.noConfusion hr
  refine ⟨?_, ?_, ?_, ?_⟩
  · intro i hi ha hs hne
    rw [verify_pc_of_find m _ p access_key password now hreg]
    have := take_terminated_ne 8 i _ _ hi hs ha (fun h => hne h.symm)
    simp [this]
  · intro i hi ha hs hne
    rw [verify_gc_of_find m _ p access_key password now hreg]
    have := take_terminated_ne 12 i _ _ hi hs ha (fun h => hne h.symm)
    simp [this]
  · intro h
    have hk := take_terminated_of_take 8 _ _ h
    have hval : verify_pc m (m.heap p).serial_number access_key password now =
        (if password_differs (m.heap p).gc_password password then
          Except.error incorrect_password
        else if (m.heap p).ban_end_time ≠ 0 ∧ (m.heap p).ban_end_time ≥ now then
          Except.error user_is_banned
        else Except.ok p) := by
      rw [verify_pc_of_find m _ p access_key password now hreg]
      simp [hk]
    refine ⟨hne _ hval, hval, ?_⟩
    rw [verify_pc_of_find m _ p access_key password now hreg,
      verify_pc_of_find m _ p (m.heap p).access_key password now hreg]
    simp [hk]
  · intro h
    have hk := take_terminated_of_take 12 _ _ h
    have hval : verify_gc m (m.heap p).serial_number access_key password now =
        (if password_differs (m.heap p).gc_password password then
          Except.error incorrect_password
        else if (m.heap p).ban_end_time ≠ 0 ∧ (m.heap p).ban_end_time ≥ now then
          Except.error user_is_banned
        else Except.ok p) := by
      rw [verify_gc_of_find m _ p access_key password now hreg]
      simp [hk]
    refine ⟨hne _ hval, hval, ?_⟩
    rw [verify_gc_of_find m _ p access_key password now hreg,
      verify_gc_of_find m _ p (m.heap p).access_key password now hreg]
    simp [hk]

/-- Witness of C2: against `alice` (key "ABCDEFGH") `verify_pc` refuses
"ABCDEFGX" and accepts "ABCDEFGHzz"; against `carol` (key "ABCDEFGHIJKLMN")
`verify_gc` refuses "ABCDEFGHIJKXMN", which differs at position 11, and accepts
"ABCDEFGHIJKLxy", which differs at positions 12 and 13 only. -/
theorem access_key_comparison_is_prefix_only_witness :
    verify_pc alice_registry 100 "ABCDEFGX".toList none 5 =
        Except.error incorrect_access_key ∧
    verify_gc carol_registry 200 "ABCDEFGHIJKXMN".toList none 5 =
        Except.error incorrect_access_key ∧
    (verify_pc alice_registry 100 "ABCDEFGHzz".toList none 5 ≠
        Except.error incorrect_access_key ∧
      verify_pc alice_registry 100 "ABCDEFGHzz".toList none 5 = Except.ok 0 ∧
      verify_pc alice_registry 100 "ABCDEFGHzz".toList none 5 =
        verify_pc alice_registry 100 "ABCDEFGH".toList none 5) ∧
    (verify_gc carol_registry 200 "ABCDEFGHIJKLxy".toList none 5 ≠
        Except.error incorrect_access_key ∧
      verify_gc carol_registry 200 "ABCDEFGHIJKLxy".toList none 5 = Except.ok 0 ∧
      verify_gc carol_registry 200 "ABCDEFGHIJKLxy".toList none 5 =
        verify_gc carol_registry 200 "ABCDEFGHIJKLMN".toList none 5) :=
  have hpc := (access_key_comparison_is_prefix_only alice_registry 0 alice
    "ABCDEFGHzz".toList none 5 (by decide) (by decide)).2.2.1 (by decide)
  have hgc := (access_key_comparison_is_prefix_only carol_registry 0 carol
    "ABCDEFGHIJKLxy".toList none 5 (by decide) (by decide)).2.2.2 (by decide)
  ⟨(access_key_comparison_is_prefix_only alice_registry 0 alice "ABCDEFGX".toList
      none 5 (by decide) (by decide)).1 7 (by decide) (by decide) (by decide) (by decide),
    (access_key_comparison_is_prefix_only carol_registry 0 carol "ABCDEFGHIJKXMN".toList
      none 5 (by decide) (by decide)).2.1 11 (by decide) (by decide) (by decide) (by decide),
    ⟨hpc.1, hpc.2.1.trans rfl, hpc.2.2⟩,
    ⟨hgc.1, hgc.2.1.trans rfl, hgc.2.2⟩⟩

/-! ## Absent keys, `add`, and the rewrite of the file -/

/-- C4: an absent key yields NotFound (`std::out_of_range`) and changes
nothing.  When `s` is not a key of the serial-number index, `verify_pc`,
`verify_gc`, `remove` and `ban_until` fail with it whatever the other arguments
are, and the registry after the failed `remove` or `ban_until` is the registry
before it (indices, records and file, hence `count`); when the string of `u` is
not a key of the username index, `verify_bb` fails with it. -/
theorem absent_key_is_NotFound (m : LicenseManager) (s : Nat) (u access_key : List Char)
    (password : Option (List Char)) (now end_time : Nat) :
    (map_find m.serial_number_to_license s = none →
      verify_pc m s access_key password now = Except.error NotFound ∧
      verify_gc m s access_key password now = Except.error NotFound ∧
      remove m s = (Except.error NotFound, m) ∧
      ban_until m s end_time = (Except.error NotFound, m) ∧
      count (remove m s).2 = count m ∧
      count (ban_until m s end_time).2 = count m) ∧
    (map_find m.bb_username_to_license (c_str u) = none →
      verify_bb m u password now = Except.error NotFound) := by
  constructor
  · intro h
    simp [verify_pc, verify_gc, remove, ban_until, map_at, h, NotFound]
  · intro h
    simp [verify_bb, map_at, h, NotFound]

/-- Witness of C4: serial number 7 and the username "bob" are unknown to the
registry that holds `alice`. -/
theorem absent_key_is_NotFound_witness :
    (verify_pc alice_registry 7 "ABCDEFGH".toList none 5 = Except.error NotFound ∧
      verify_gc alice_registry 7 "ABCDEFGH".toList none 5 = Except.error NotFound ∧
      remove alice_registry 7 = (Except.error NotFound, alice_registry) ∧
      ban_until alice_registry 7 9 = (Except.error NotFound, alice_registry) ∧
      count (remove alice_registry 7).2 = count alice_registry ∧
      count (ban_until alice_registry 7 9).2 = count alice_registry) ∧
    verify_bb alice_registry "bob".toList none 5 = Except.error NotFound :=
  ⟨(absent_key_is_NotFound alice_registry 7 "bob".toList "ABCDEFGH".toList none 5 9).1
      (by decide),
    (absent_key_is_NotFound alice_registry 7 "bob".toList "ABCDEFGH".toList none 5 9).2
      (by decide)⟩

/-- C5: in every registry state, for a license `L` (the object at `l`) whose
serial number is not in the serial-number index and whose username, if
non-empty, is not in the username index: `add` raises nothing, `count` is one
more than before, the serial-number index maps `L.serial_number` to the object
(still holding `L`, so that verification with its own access key returns it
when it is not banned), the username index maps `L.username` to the same
object when the username is non-empty, and is unchanged when it is empty. -/
theorem add_registers_new_license (m : LicenseManager) (l : Nat) (L : License)
    (hL : m.heap l = L)
    (hs : map_find m.serial_number_to_license L.serial_number = none)
    (hu : L.has_username → map_find m.bb_username_to_license (c_str L.username) = none) :
    (add m l).1 = Except.ok () ∧
    count (add m l).2 = count m + 1 ∧
    map_find (add m l).2.serial_number_to_license L.serial_number = some l ∧
    (add m l).2.heap l = L ∧
    (∀ now, L.ban_end_time = 0 ∨ L.ban_end_time < now →
      verify_pc (add m l).2 L.serial_number L.access_key none now = Except.ok l ∧
      verify_gc (add m l).2 L.serial_number L.access_key none now = Except.ok l) ∧
    (L.has_username →
      map_find (add m l).2.bb_username_to_license (c_str L.username) = some l) ∧
    (¬ L.has_username →
      (add m l).2.bb_username_to_license = m.bb_username_to_license) := by
  subst hL
  have hfind : map_find (add m l).2.serial_number_to_license (m.heap l).serial_number
      = some l := by
    by_cases hn : (m.heap l).has_username
    · simp [add, save_locked, hn, map_find_emplace_self _ _ _ hs]
    · simp [add, save_locked, hn, map_find_emplace_self _ _ _ hs]
  have hheap : (add m l).2.heap l = m.heap l := by
    by_cases hn : (m.heap l).has_username <;> simp [add, save_locked, hn]
  refine ⟨rfl, ?_, hfind, hheap, ?_, ?_, ?_⟩
  · by_cases hn : (m.heap l).has_username
    · simp [add, save_locked, hn, count, map_size_emplace_of_none _ _ _ hs]
    · simp [add, save_locked, hn, count, map_size_emplace_of_none _ _ _ hs]
  · intro now hban
    have h := verify_ok_of_credentials (add m l).2 l
      (m.heap l).access_key none now (hheap ▸ hfind) (hheap ▸ hban) (Or.inl rfl)
    rw [hheap] at h
    exact ⟨h.1 rfl, h.2 rfl⟩
  · intro hn
    simp [add, save_locked, hn, map_find_emplace_self _ _ _ (hu hn)]
  · intro hn
    simp [add, save_locked, hn]

/-- Witness of C5: adding `alice` to the empty registry. -/
theorem add_registers_new_license_witness :
    (add alice_unregistered 0).1 = Except.ok () ∧
    count (add alice_unregistered 0).2 = count alice_unregistered + 1 ∧
    map_find (add alice_unregistered 0).2.serial_number_to_license 100 = some 0 ∧
    (add alice_unregistered 0).2.heap 0 = alice ∧
    (verify_pc (add alice_unregistered 0).2 100 "ABCDEFGH".toList none 5 = Except.ok 0 ∧
      verify_gc (add alice_unregistered 0).2 100 "ABCDEFGH".toList none 5 = Except.ok 0) ∧
    map_find (add alice_unregistered 0).2.bb_username_to_license "alice".toList = some 0 :=
  have h := add_registers_new_license alice_unregistered 0 alice (by decide) (by decide)
    (fun _ => by decide)
  ⟨h.1, h.2.1, h.2.2.1, h.2.2.2.1, h.2.2.2.2.1 5 (by decide), h.2.2.2.2.2.1 (by decide)⟩

/-- C10: rewrite-on-write.  After every successful `add`, `remove` or
`ban_until` the backing file holds exactly the records of the licenses that are
in the serial-number index after the call, one per entry, in the iteration order
of the index and with the values the objects have after the call (what
`snapshot` returns), whatever the file held before; its length is therefore
`count()` times the record size. -/
theorem mutation_rewrites_whole_file (m : LicenseManager) (sizeof_License : Nat) :
    (∀ l, (add m l).1 = Except.ok () →
      (add m l).2.file = some ((add m l).2.serial_number_to_license.map
        (fun it => (add m l).2.heap it.2)) ∧
      (add m l).2.file = some (snapshot (add m l).2) ∧
      file_size sizeof_License (add m l).2.file = count (add m l).2 * sizeof_License) ∧
    (∀ s, (remove m s).1 = Except.ok () →
      (remove m s).2.file = some ((remove m s).2.serial_number_to_license.map
        (fun it => (remove m s).2.heap it.2)) ∧
      (remove m s).2.file = some (snapshot (remove m s).2) ∧
      file_size sizeof_License (remove m s).2.file =
        count (remove m s).2 * sizeof_License) ∧
    (∀ s t, (ban_until m s t).1 = Except.ok () →
      (ban_until m s t).2.file = some ((ban_until m s t).2.serial_number_to_license.map
        (fun it => (ban_until m s t).2.heap it.2)) ∧
      (ban_until m s t).2.file = some (snapshot (ban_until m s t).2) ∧
      file_size sizeof_License (ban_until m s t).2.file =
        count (ban_until m s t).2 * sizeof_License) := by
  refine ⟨?_, ?_, ?_⟩
  · intro l _
    by_cases hn : (m.heap l).has_username <;>
      simp [add, save_locked, hn, snapshot, file_size, count, map_size]
  · intro s hok
    cases hf : map_find m.serial_number_to_license s with
    | none => simp [remove, map_at, hf] at hok
    | some p =>
      by_cases hn : (m.heap p).has_username <;>
        simp [remove, map_at, hf, save_locked, hn, snapshot, file_size, count, map_size]
  · intro s t hok
    cases hf : map_find m.serial_number_to_license s with
    | none => simp [ban_until, map_at, hf] at hok
    | some p =>
      simp [ban_until, map_at, hf, save_locked, snapshot, file_size, count, map_size]

/-- Witness of C10: in the registry that holds `alice` (record size 84),
adding a second object, removing serial number 100 and banning it until 9. -/
theorem mutation_rewrites_whole_file_witness :
    ((add alice_registry 1).2.file = some ((add alice_registry 1).2.serial_number_to_license.map
        (fun it => (add alice_registry 1).2.heap it.2)) ∧
      (add alice_registry 1).2.file = some (snapshot (add alice_registry 1).2) ∧
      file_size 84 (add alice_registry 1).2.file = count (add alice_registry 1).2 * 84) ∧
    ((remove alice_registry 100).2.file =
        some ((remove alice_registry 100).2.serial_number_to_license.map
          (fun it => (remove alice_registry 100).2.heap it.2)) ∧
      (remove alice_registry 100).2.file = some (snapshot (remove alice_registry 100).2) ∧
      file_size 84 (remove alice_registry 100).2.file =
        count (remove alice_registry 100).2 * 84) ∧
    ((ban_until alice_registry 100 9).2.file =
        some ((ban_until alice_registry 100 9).2.serial_number_to_license.map
          (fun it => (ban_until alice_registry 100 9).2.heap it.2)) ∧
      (ban_until alice_registry 100 9).2.file =
        some (snapshot (ban_until alice_registry 100 9).2) ∧
      file_size 84 (ban_until alice_registry 100 9).2.file =
        count (ban_until alice_registry 100 9).2 * 84) :=
  ⟨(mutation_rewrites_whole_file alice_registry 84).1 1 rfl,
    (mutation_rewrites_whole_file alice_registry 84).2.1 100 rfl,
    (mutation_rewrites_whole_file alice_registry 84).2.2 100 9 rfl⟩

/-! ## Bans and removal in reachable states -/

/-- Counterexample to C3: the constructor loads a file holding `alice` (serial
number 100) and `alice_101` (serial number 101), both with the username
"alice"; the username index keeps the first.  `alice_101` is registered and
has a non-empty username; after `ban_until(101, 9)`, at time 5, `verify_pc`
with its own access key and `gc_password` fails with "user is banned", while
`verify_bb` with its username and `bb_password` succeeds and returns the
record of `alice`, which is not banned. -/
theorem ban_missed_through_shared_username :
    two_alice_registry.serial_number_to_license = [(100, 0), (101, 1)] ∧
    two_alice_registry.bb_username_to_license = [("alice".toList, 0)] ∧
    two_alice_registry.heap 1 = alice_101 ∧
    alice_101.has_username ∧
    map_find two_alice_registry.serial_number_to_license alice_101.serial_number =
      some 1 ∧
    (ban_until two_alice_registry alice_101.serial_number 9).1 = Except.ok () ∧
    ((9 : Nat) ≠ 0 ∧ (9 : Nat) ≥ 5) ∧
    verify_pc (ban_until two_alice_registry alice_101.serial_number 9).2
      alice_101.serial_number alice_101.access_key (some alice_101.gc_password) 5 =
        Except.error user_is_banned ∧
    verify_bb (ban_until two_alice_registry alice_101.serial_number 9).2
      alice_101.username (some alice_101.bb_password) 5 = Except.ok 0 ∧
    (ban_until two_alice_registry alice_101.serial_number 9).2.heap 0 = alice := by
  refine ⟨by decide, by decide, by decide, by decide, by decide, rfl, by decide, rfl, rfl,
    by decide⟩

/-- C3 as amended: in every state reachable from a backing file whose records
have pairwise distinct serial numbers and pairwise distinct non-empty
usernames, by `add` of a license whose serial number and whose username, if
non-empty, are not yet present, by `remove` and by `ban_until`: for a registered
license `L` (the object at `p`) with a non-empty username, after
`ban_until(L.serial_number, t)` the calls `verify_pc` and `verify_gc` with the
stored access key and `gc_password`, and `verify_bb` with the username and the
stored `bb_password`, fail with the "user is banned" error if `t ≠ 0` and
`t ≥ now`, and otherwise succeed and return the object: the ban set through
the serial number is seen through the username index too. -/
theorem ban_until_decides_banned (file : Option (List License)) (m : LicenseManager)
    (p : Nat) (L : License) (t now : Nat)
    (hfile : ∀ records, file = some records → distinct_keys records)
    (hr : Reachable file m) (hL : m.heap p = L)
    (hreg : map_find m.serial_number_to_license L.serial_number = some p)
    (hname : L.has_username) :
    (ban_until m L.serial_number t).1 = Except.ok () ∧
    verify_pc (ban_until m L.serial_number t).2 L.serial_number L.access_key
        (some L.gc_password) now =
      (if t ≠ 0 ∧ t ≥ now then Except.error user_is_banned else Except.ok p) ∧
    verify_gc (ban_until m L.serial_number t).2 L.serial_number L.access_key
        (some L.gc_password) now =
      (if t ≠ 0 ∧ t ≥ now then Except.error user_is_banned else Except.ok p) ∧
    verify_bb (ban_until m L.serial_number t).2 L.username (some L.bb_password) now =
      (if t ≠ 0 ∧ t ≥ now then Except.error user_is_banned else Except.ok p) := by
  subst hL
  have hinv := Inv_of_reachable file m hfile hr
  have hu := hinv.by_username _ (mem_of_map_find _ _ _ hreg) hname
  simp only at hu
  have hs2 : map_find (ban_until m (m.heap p).serial_number t).2.serial_number_to_license
      (m.heap p).serial_number = some p := by
    rw [ban_until_eq m _ p t hreg]; exact hreg
  have hu2 : map_find (ban_until m (m.heap p).serial_number t).2.bb_username_to_license
      (c_str (m.heap p).username) = some p := by
    rw [ban_until_eq m _ p t hreg]; exact hu
  have hh : (ban_until m (m.heap p).serial_number t).2.heap p =
      { m.heap p with ban_end_time := t } := by
    rw [ban_until_eq m _ p t hreg]; exact heap_set_self _ _ _
  refine ⟨by rw [ban_until_eq m _ p t hreg], ?_, ?_, ?_⟩
  · rw [verify_pc_of_find _ _ p _ _ _ hs2, hh]
    simp [password_differs_self]
  · rw [verify_gc_of_find _ _ p _ _ _ hs2, hh]
    simp [password_differs_self]
  · rw [verify_bb_of_find _ _ p _ _ hu2, hh]
    simp [password_differs_self]

/-- Witness of C3 as amended: `alice`, whose stored `bb_password` is empty,
banned until 9 and verified at time 5, and the ban lifted with 0. -/
theorem ban_until_decides_banned_witness :
    ((ban_until alice_registry 100 9).1 = Except.ok () ∧
      verify_pc (ban_until alice_registry 100 9).2 100 "ABCDEFGH".toList
        (some "pw1".toList) 5 = Except.error user_is_banned ∧
      verify_gc (ban_until alice_registry 100 9).2 100 "ABCDEFGH".toList
        (some "pw1".toList) 5 = Except.error user_is_banned ∧
      verify_bb (ban_until alice_registry 100 9).2 "alice".toList (some []) 5 =
        Except.error user_is_banned) ∧
    ((ban_until alice_registry 100 0).1 = Except.ok () ∧
      verify_pc (ban_until alice_registry 100 0).2 100 "ABCDEFGH".toList
        (some "pw1".toList) 5 = Except.ok 0 ∧
      verify_gc (ban_until alice_registry 100 0).2 100 "ABCDEFGH".toList
        (some "pw1".toList) 5 = Except.ok 0 ∧
      verify_bb (ban_until alice_registry 100 0).2 "alice".toList (some []) 5 =
        Except.ok 0) :=
  ⟨ban_until_decides_banned (some [alice]) alice_registry 0 alice 9 5
      (fun _ h => Option.some.inj h ▸ by decide) Reachable.load (by decide) (by decide)
      (by decide),
    ban_until_decides_banned (some [alice]) alice_registry 0 alice 0 5
      (fun _ h => Option.some.inj h ▸ by decide) Reachable.load (by decide) (by decide)
      (by decide)⟩

/-- C6: in every reachable state, for a license `L` in the serial-number index
(the object at `p`), after `remove(L.serial_number)`: `verify_pc` and
`verify_gc` for that serial number fail with NotFound whatever the credentials,
`verify_bb` for `L.username` fails with NotFound when the username is
non-empty, and `count()` is one less than before. -/
theorem remove_unregisters (file : Option (List License)) (m : LicenseManager)
    (p : Nat) (L : License) (hr : Reachable file m) (hL : m.heap p = L)
    (hreg : map_find m.serial_number_to_license L.serial_number = some p) :
    (remove m L.serial_number).1 = Except.ok () ∧
    (∀ access_key password now,
      verify_pc (remove m L.serial_number).2 L.serial_number access_key password now =
        Except.error NotFound ∧
      verify_gc (remove m L.serial_number).2 L.serial_number access_key password now =
        Except.error NotFound) ∧
    (L.has_username → ∀ password now,
      verify_bb (remove m L.serial_number).2 L.username password now =
        Except.error NotFound) ∧
    count (remove m L.serial_number).2 + 1 = count m := by
  subst hL
  have hnd := nodup_of_reachable file m hr
  rw [remove_eq m _ p hreg]
  refine ⟨rfl, ?_, ?_, ?_⟩
  · intro access_key password now
    simp [verify_pc, verify_gc, map_at, map_find_erase_self, NotFound]
  · intro hn password now
    simp [verify_bb, map_at, hn, map_find_erase_self, NotFound]
  · exact map_size_erase _ _ p hnd hreg

/-- Witness of C6: removing `alice` from the registry that holds it alone. -/
theorem remove_unregisters_witness :
    (remove alice_registry 100).1 = Except.ok () ∧
    (verify_pc (remove alice_registry 100).2 100 "ABCDEFGH".toList none 5 =
        Except.error NotFound ∧
      verify_gc (remove alice_registry 100).2 100 "ABCDEFGH".toList none 5 =
        Except.error NotFound) ∧
    verify_bb (remove alice_registry 100).2 "alice".toList none 5 =
      Except.error NotFound ∧
    count (remove alice_registry 100).2 + 1 = count alice_registry :=
  have h := remove_unregisters (some [alice]) alice_registry 0 alice Reachable.load
    (by decide) (by decide)
  ⟨h.1, h.2.1 "ABCDEFGH".toList none 5, h.2.2.1 (by decide) none 5, h.2.2.2⟩

/-! ## Loading, and `add` of a duplicate -/

/-- C7, evaluated on the code: the registry holding `nobody` (no username) has
an empty username index; `save_locked` writes the one record; the constructor
run on that file builds a username index with the key "" referring to the
record, so the reloaded username index does not have the keys of the saved one. -/
theorem round_trip_gains_empty_key :
    nobody_registry.serial_number_to_license = [(1, 0)] ∧
    nobody_registry.bb_username_to_license = [] ∧
    (save_locked nobody_registry).file = some [nobody] ∧
    (LicenseManager.LicenseManager (save_locked nobody_registry).file).serial_number_to_license =
      [(1, 0)] ∧
    (LicenseManager.LicenseManager (save_locked nobody_registry).file).bb_username_to_license =
      [([], 0)] ∧
    (LicenseManager.LicenseManager (save_locked nobody_registry).file).bb_username_to_license.map
        Prod.fst ≠ nobody_registry.bb_username_to_license.map Prod.fst := by
  decide

/-- C8, evaluated on the code: the file holding `nobody` alone has distinct
keys, yet after the constructor the username index holds that record, whose
username is empty, and after `remove(1)` the username index still refers to
the record the serial-number index no longer holds. -/
theorem load_indexes_empty_username :
    distinct_keys [nobody] ∧
    (LicenseManager.LicenseManager (some [nobody])).bb_username_to_license = [([], 0)] ∧
    ¬ username_index_nonempty (LicenseManager.LicenseManager (some [nobody])) ∧
    (remove (LicenseManager.LicenseManager (some [nobody])) 1).2.serial_number_to_license = [] ∧
    (remove (LicenseManager.LicenseManager (some [nobody])) 1).2.bb_username_to_license =
      [([], 0)] ∧
    ¬ username_index_consistent (remove (LicenseManager.LicenseManager (some [nobody])) 1).2 := by
  decide

theorem add_heap (m : LicenseManager) (l : Nat) : (add m l).2.heap = m.heap := by
  by_cases hn : (m.heap l).has_username <;> simp [add, save_locked, hn]

theorem add_serial_number_to_license (m : LicenseManager) (l : Nat) :
    (add m l).2.serial_number_to_license =
      map_emplace m.serial_number_to_license (m.heap l).serial_number l := by
  by_cases hn : (m.heap l).has_username <;> simp [add, save_locked, hn]

theorem add_bb_username_to_license (m : LicenseManager) (l : Nat) :
    (add m l).2.bb_username_to_license =
      if (m.heap l).has_username then
        map_emplace m.bb_username_to_license (c_str (m.heap l).username) l
      else m.bb_username_to_license := by
  by_cases hn : (m.heap l).has_username <;> simp [add, save_locked, hn]

/-- Counterexample to C9: in the consistent registry that holds `alice`, adding
`bob_100`, whose serial number 100 is already registered, leaves the username
index referring under "bob" to an object that the serial-number index does not
hold under serial number 100. -/
theorem duplicate_add_corrupts_username_index :
    username_index_consistent alice_registry_with_bob_100 ∧
    serial_index_consistent alice_registry_with_bob_100 ∧
    map_find alice_registry_with_bob_100.serial_number_to_license
      (alice_registry_with_bob_100.heap 1).serial_number = some 0 ∧
    (add alice_registry_with_bob_100 1).2.bb_username_to_license =
      [("alice".toList, 0), ("bob".toList, 1)] ∧
    (add alice_registry_with_bob_100 1).2.serial_number_to_license = [(100, 0)] ∧
    ¬ username_index_consistent (add alice_registry_with_bob_100 1).2 := by
  decide

/-- C9 as amended: for a consistent registry state and a license `L` (the
object at `l`), after `add`: every object the username index refers to is
still the one the serial-number index holds under its serial number provided
`L.username` is empty or already registered, and every object of the
serial-number index with a non-empty username is still the one the username
index returns provided `L.serial_number` is already registered.  When the
serial number is registered and the non-empty username is not, the first
property is lost; when the non-empty username is registered and the serial
number is not, the second is lost. -/
theorem duplicate_add_index_consistency (m : LicenseManager) (l : Nat) (L : License)
    (hL : m.heap l = L) (hc1 : username_index_consistent m)
    (hc2 : serial_index_consistent m) :
    ((¬ L.has_username ∨ map_find m.bb_username_to_license (c_str L.username) ≠ none) →
      username_index_consistent (add m l).2) ∧
    (map_find m.serial_number_to_license L.serial_number ≠ none →
      serial_index_consistent (add m l).2) ∧
    (map_find m.serial_number_to_license L.serial_number ≠ none → L.has_username →
      map_find m.bb_username_to_license (c_str L.username) = none →
      ¬ username_index_consistent (add m l).2) ∧
    (map_find m.serial_number_to_license L.serial_number = none → L.has_username →
      map_find m.bb_username_to_license (c_str L.username) ≠ none →
      ¬ serial_index_consistent (add m l).2) := by
  subst hL
  refine ⟨?_, ?_, ?_, ?_⟩
  · intro h e he
    have hu : (add m l).2.bb_username_to_license = m.bb_username_to_license := by
      rw [add_bb_username_to_license]
      rcases h with h | h
      · rw [if_neg h]
      · obtain ⟨v, hv⟩ := Option.ne_none_iff_exists'.1 h
        rw [map_emplace_of_some _ _ _ v hv]
        simp
    rw [hu] at he
    rw [add_heap, add_serial_number_to_license]
    exact map_find_emplace_of_some _ _ _ _ _ (hc1 e he)
  · intro h e he hn
    obtain ⟨v, hv⟩ := Option.ne_none_iff_exists'.1 h
    rw [add_serial_number_to_license, map_emplace_of_some _ _ _ v hv] at he
    rw [add_heap] at hn ⊢
    rw [add_bb_username_to_license]
    have h1 := hc2 e he hn
    by_cases hl : (m.heap l).has_username
    · rw [if_pos hl]
      exact map_find_emplace_of_some _ _ _ _ _ h1
    · rw [if_neg hl]
      exact h1
  · intro h hn hu hcons
    obtain ⟨v, hv⟩ := Option.ne_none_iff_exists'.1 h
    have hmem : (c_str (m.heap l).username, l) ∈ (add m l).2.bb_username_to_license := by
      rw [add_bb_username_to_license, if_pos hn, map_emplace_of_none _ _ _ hu]
      simp
    have h1 := hcons _ hmem
    rw [add_heap, add_serial_number_to_license, map_emplace_of_some _ _ _ v hv] at h1
    simp only at h1
    have h2 := hc2 _ (mem_of_map_find _ _ _ h1) hn
    simp only at h2
    rw [hu] at h2
    exact Option.noConfusion h2
  · intro h hn hu hcons
    obtain ⟨v, hv⟩ := Option.ne_none_iff_exists'.1 hu
    have hmem : ((m.heap l).serial_number, l) ∈ (add m l).2.serial_number_to_license := by
      rw [add_serial_number_to_license, map_emplace_of_none _ _ _ h]
      simp
    have h1 := hcons _ hmem (by rw [add_heap]; exact hn)
    rw [add_heap, add_bb_username_to_license, if_pos hn,
      map_emplace_of_some _ _ _ v hv] at h1
    simp only at h1
    have h2 := hc1 _ (mem_of_map_find _ _ _ h1)
    simp only at h2
    rw [h] at h2
    exact Option.noConfusion h2

/-- Witness of C9 as amended: re-adding the object of `alice` keeps both
properties; adding `bob_100` loses the first, adding `alice_101` the second. -/
theorem duplicate_add_index_consistency_witness :
    username_index_consistent (add alice_registry 0).2 ∧
    serial_index_consistent (add alice_registry 0).2 ∧
    ¬ username_index_consistent (add alice_registry_with_bob_100 1).2 ∧
    ¬ serial_index_consistent (add alice_registry_with_alice_101 1).2 :=
  ⟨(duplicate_add_index_consistency alice_registry 0 alice (by decide) (by decide)
      (by decide)).1 (Or.inr (by decide)),
    (duplicate_add_index_consistency alice_registry 0 alice (by decide) (by decide)
      (by decide)).2.1 (by decide),
    (duplicate_add_index_consistency alice_registry_with_bob_100 1 bob_100 (by decide)
      (by decide) (by decide)).2.2.1 (by decide) (by decide) (by decide),
    (duplicate_add_index_consistency alice_registry_with_alice_101 1 alice_101 (by decide)
      (by decide) (by decide)).2.2.2 (by decide) (by decide) (by decide)⟩

/-! ## `verify_bb`, and the error a ban raises -/

theorem password_differs_some (stored pw : List Char) :
    password_differs stored (some pw) = decide (c_str stored ≠ c_str pw) := by
  simp [password_differs, strcmp_eq_zero_iff]

/-- C11: `verify_bb` is the rule of the specification for every registry state,
username, optional password and clock value: NotFound when the username is not
in the username index, else "incorrect password" when a password is supplied
and differs from the stored `bb_password` compared in full, else "user is
banned" when `ban_end_time` is non-zero and not below `now`, else the indexed
record.  The access key and `gc_password` play no part (a registry whose
records differ from this one in those two fields only gives the same result),
and a wrong password yields "incorrect password" whether or not the license
is banned. -/
theorem verify_bb_is_determined (m : LicenseManager) (username : List Char)
    (password : Option (List Char)) (now : Nat) :
    verify_bb m username password now = verify_by_username_spec m username password now ∧
    (∀ m2 : LicenseManager,
      m2.bb_username_to_license = m.bb_username_to_license →
      (∀ q, (m2.heap q).bb_password = (m.heap q).bb_password ∧
        (m2.heap q).ban_end_time = (m.heap q).ban_end_time) →
      verify_bb m2 username password now = verify_bb m username password now) ∧
    (∀ q pw, map_find m.bb_username_to_license (c_str username) = some q →
      c_str pw ≠ c_str (m.heap q).bb_password →
      verify_bb m username (some pw) now = Except.error incorrect_password) := by
  refine ⟨?_, ?_, ?_⟩
  · cases hf : map_find m.bb_username_to_license (c_str username) with
    | none => simp [verify_bb, verify_by_username_spec, map_at, hf, NotFound]
    | some q =>
      rw [verify_bb_of_find m username q password now hf]
      cases password with
      | none => simp [verify_by_username_spec, hf, password_differs]
      | some pw =>
        by_cases hpw : c_str pw = c_str (m.heap q).bb_password
        · simp [verify_by_username_spec, hf, password_differs_some, hpw]
        · have hpw2 : ¬ c_str (m.heap q).bb_password = c_str pw := fun h => hpw h.symm
          simp [verify_by_username_spec, hf, password_differs_some, hpw, hpw2]
  · intro m2 hidx hrec
    cases hf : map_find m.bb_username_to_license (c_str username) with
    | none => simp [verify_bb, map_at, hf, hidx]
    | some q =>
      rw [verify_bb_of_find m username q password now hf,
        verify_bb_of_find m2 username q password now (hidx ▸ hf), (hrec q).1, (hrec q).2]
  · intro q pw hf hpw
    have hpw2 : ¬ c_str (m.heap q).bb_password = c_str pw := fun h => hpw h.symm
    rw [verify_bb_of_find m username q (some pw) now hf]
    simp [password_differs_some, hpw2]

/-- Witness of C11: in the registry holding `alice`, a registry that differs in
`access_key` and `gc_password` only answers alike, and the password "x" is
refused for the username "alice". -/
theorem verify_bb_is_determined_witness :
    verify_bb alice_registry "alice".toList (some "x".toList) 5 =
      verify_by_username_spec alice_registry "alice".toList (some "x".toList) 5 ∧
    verify_bb (LicenseManager.LicenseManager (some [{ alice with
        access_key := "K".toList, gc_password := [] }]))
        "alice".toList (some "x".toList) 5 =
      verify_bb alice_registry "alice".toList (some "x".toList) 5 ∧
    verify_bb alice_registry "alice".toList (some "x".toList) 5 =
      Except.error incorrect_password :=
  have h := verify_bb_is_determined alice_registry "alice".toList (some "x".toList) 5
  ⟨h.1,
    h.2.1 (LicenseManager.LicenseManager (some [{ alice with
        access_key := "K".toList, gc_password := [] }])) (by decide)
      (fun q => by
        by_cases hq : q = 0
        · subst hq; exact ⟨by decide, by decide⟩
        · simp [alice_registry, LicenseManager.LicenseManager, load_vector_file,
            load_license, new_License, LicenseManager.init, heap_set, hq]),
    h.2.2 0 "x".toList (by decide) (by decide)⟩

/-- Counterexample to C12: in the registry reached from the empty one by adding
`alice` (whose `bb_password` is not set), `verify_bb("alice", "pw1")` throws
"incorrect password". -/
theorem scenario_password_pw1_is_refused :
    (LicenseManager.LicenseManager none).serial_number_to_license = [] ∧
    (LicenseManager.LicenseManager none).bb_username_to_license = [] ∧
    alice_added.heap 0 = alice ∧
    verify_bb alice_added "alice".toList (some "pw1".toList) 5 =
      Except.error incorrect_password := by
  refine ⟨rfl, rfl, by decide, rfl⟩

/-- C12 as amended: starting from the empty registry, after `add` of `alice`
(`bb_password` not set), `verify_bb("alice", "pw1")` fails with "incorrect
password" at every time, because the password is compared with `bb_password`
and not with `gc_password`; with the password absent, or with the empty
password, `verify_bb("alice", ..)` succeeds and returns the license with
serial number 100. -/
theorem scenario_verify_by_username (now : Nat) :
    verify_bb alice_added "alice".toList (some "pw1".toList) now =
      Except.error incorrect_password ∧
    verify_bb alice_added "alice".toList none now = Except.ok 0 ∧
    verify_bb alice_added "alice".toList (some []) now = Except.ok 0 ∧
    (alice_added.heap 0).serial_number = 100 := by
  have hf : map_find alice_added.bb_username_to_license (c_str "alice".toList) = some 0 := by
    decide
  have hb : (alice_added.heap 0).ban_end_time = 0 := by decide
  have hp : (alice_added.heap 0).bb_password = [] := by decide
  refine ⟨?_, ?_, ?_, by decide⟩
  · have hd : password_differs [] (some "pw1".toList) = true := by decide
    rw [verify_bb_of_find _ _ 0 _ now hf, hp, hd]
    rfl
  · rw [verify_bb_of_find _ _ 0 _ now hf, hb]
    simp [password_differs]
  · have hd : password_differs [] (some []) = false := by decide
    rw [verify_bb_of_find _ _ 0 _ now hf, hb, hp, hd]
    simp

/-- Counterexample to C13: `alice` banned until 9 and banned until 10 is refused
at time 5 with one and the same exception, whose class is that of the
credential failures; no reading of the exception gives the ban expiry. -/
theorem banned_error_carries_no_expiry :
    verify_pc (ban_until alice_registry 100 9).2 100 "ABCDEFGH".toList none 5 =
      Except.error (Exception.invalid_argument "user is banned") ∧
    verify_pc (ban_until alice_registry 100 10).2 100 "ABCDEFGH".toList none 5 =
      Except.error (Exception.invalid_argument "user is banned") ∧
    ((ban_until alice_registry 100 9).2.heap 0).ban_end_time = 9 ∧
    ((ban_until alice_registry 100 10).2.heap 0).ban_end_time = 10 ∧
    (Exception.invalid_argument "user is banned").class_name =
      incorrect_password.class_name ∧
    ¬ ∃ expiry : Exception → Nat, ∀ t e,
      verify_pc (ban_until alice_registry 100 t).2 100 "ABCDEFGH".toList none 5 =
        Except.error e →
      expiry e = ((ban_until alice_registry 100 t).2.heap 0).ban_end_time := by
  refine ⟨rfl, rfl, rfl, rfl, rfl, ?_⟩
  rintro ⟨expiry, h⟩
  have h9 := h 9 _ rfl
  have h10 := h 10 _ rfl
  have e9 : ((ban_until alice_registry 100 9).2.heap 0).ban_end_time = 9 := rfl
  have e10 : ((ban_until alice_registry 100 10).2.heap 0).ban_end_time = 10 := rfl
  rw [e9] at h9
  rw [e10] at h10
  rw [h9] at h10
  exact absurd h10 (by decide)

/-- C13 as amended: when `verify_pc`, `verify_gc` or `verify_bb` fails because
the license is currently banned (the record is found, the credentials pass and
the ban test holds), the failure is the `std::invalid_argument` with the
message "user is banned": an exception of the same class as the two
credential failures, told apart from them by its message only, and the same
exception whatever the stored `ban_end_time` is. -/
theorem banned_failure_is_invalid_argument (m : LicenseManager) (serial_number p q : Nat)
    (username access_key : List Char) (password : Option (List Char)) (now : Nat) :
    (map_find m.serial_number_to_license serial_number = some p →
      currently_banned m p now →
      password_differs (m.heap p).gc_password password = false →
      (strncmp (m.heap p).access_key access_key 8 = 0 →
        verify_pc m serial_number access_key password now =
          Except.error (Exception.invalid_argument "user is banned")) ∧
      (strncmp (m.heap p).access_key access_key 12 = 0 →
        verify_gc m serial_number access_key password now =
          Except.error (Exception.invalid_argument "user is banned"))) ∧
    (map_find m.bb_username_to_license (c_str username) = some q →
      currently_banned m q now →
      password_differs (m.heap q).bb_password password = false →
      verify_bb m username password now =
        Except.error (Exception.invalid_argument "user is banned")) ∧
    user_is_banned.class_name = "std::invalid_argument" ∧
    incorrect_password.class_name = "std::invalid_argument" ∧
    incorrect_access_key.class_name = "std::invalid_argument" ∧
    user_is_banned ≠ incorrect_password ∧
    user_is_banned ≠ incorrect_access_key := by
  refine ⟨?_, ?_, rfl, rfl, rfl, by decide, by decide⟩
  · intro hf hban hpw
    unfold currently_banned at hban
    constructor
    · intro hk
      simp [verify_pc, map_at, hf, hk, hpw, hban.1, hban.2]
    · intro hk
      simp [verify_gc, map_at, hf, hk, hpw, hban.1, hban.2]
  · intro hf hban hpw
    unfold currently_banned at hban
    simp [verify_bb, map_at, hf, hpw, hban.1, hban.2]

/-- Witness of C13 as amended: `alice` banned until 9, verified at time 5. -/
theorem banned_failure_is_invalid_argument_witness :
    (verify_pc (ban_until alice_registry 100 9).2 100 "ABCDEFGH".toList none 5 =
        Except.error (Exception.invalid_argument "user is banned") ∧
      verify_gc (ban_until alice_registry 100 9).2 100 "ABCDEFGH".toList none 5 =
        Except.error (Exception.invalid_argument "user is banned")) ∧
    verify_bb (ban_until alice_registry 100 9).2 "alice".toList none 5 =
      Except.error (Exception.invalid_argument "user is banned") :=
  have h := banned_failure_is_invalid_argument (ban_until alice_registry 100 9).2 100 0 0
    "alice".toList "ABCDEFGH".toList none 5
  ⟨⟨(h.1 (by decide) (by decide) (by decide)).1 (by decide),
      (h.1 (by decide) (by decide) (by decide)).2 (by decide)⟩,
    h.2.1 (by decide) (by decide) (by decide)⟩

/-! ## `snapshot`, the two serial-number variants, and `add` of a present key -/

theorem snapshot_nodup (m : LicenseManager)
    (hnd : (m.serial_number_to_license.map Prod.fst).Nodup)
    (hks : ∀ e ∈ m.serial_number_to_license, (m.heap e.2).serial_number = e.1) :
    (snapshot m).Nodup := by
  have h : (snapshot m).map License.serial_number =
      m.serial_number_to_license.map Prod.fst := by
    unfold snapshot
    rw [List.map_map]
    exact List.map_congr_left (fun e he => hks e he)
  exact List.Nodup.of_map License.serial_number (h ▸ hnd)

/-- C16: in every registry state `snapshot()` returns a list of length
`count()` whose element at each position is the record of the entry of the
serial-number index at that position, so that every element is the record
stored under some key; when no key occurs twice and each key is the serial
number of its record (as in every reachable state), the record stored under a
key occurs in the list exactly once.  `snapshot` and `count` are `const` and
write nothing: they are functions of the state that return no new state. -/
theorem snapshot_copies_every_license (m : LicenseManager) :
    (snapshot m).length = count m ∧
    (∀ i, (snapshot m).get? i =
      (m.serial_number_to_license.get? i).map (fun it => m.heap it.2)) ∧
    (∀ x ∈ snapshot m, ∃ k p, (k, p) ∈ m.serial_number_to_license ∧ x = m.heap p) ∧
    (∀ k p, map_find m.serial_number_to_license k = some p → m.heap p ∈ snapshot m) ∧
    ((m.serial_number_to_license.map Prod.fst).Nodup →
      (∀ e ∈ m.serial_number_to_license, (m.heap e.2).serial_number = e.1) →
      ∀ k p, map_find m.serial_number_to_license k = some p →
        (snapshot m).count (m.heap p) = 1) := by
  have hmem : ∀ k p, map_find m.serial_number_to_license k = some p →
      m.heap p ∈ snapshot m := by
    intro k p hf
    unfold snapshot
    exact List.mem_map.2 ⟨(k, p), mem_of_map_find _ _ _ hf, rfl⟩
  refine ⟨by simp [snapshot, count, map_size], ?_, ?_, hmem, ?_⟩
  · intro i
    simp [snapshot, List.get?_eq_getElem?]
  · intro x hx
    unfold snapshot at hx
    obtain ⟨e, he, hxe⟩ := List.mem_map.1 hx
    exact ⟨e.1, e.2, he, hxe.symm⟩
  · intro hnd hks k p hf
    exact List.count_eq_one_of_mem (snapshot_nodup m hnd hks) (hmem k p hf)

/-- Witness of C16: the registry holding `alice`. -/
theorem snapshot_copies_every_license_witness :
    (snapshot alice_registry).length = count alice_registry ∧
    (snapshot alice_registry).get? 0 = some alice ∧
    alice_registry.heap 0 ∈ snapshot alice_registry ∧
    (snapshot alice_registry).count (alice_registry.heap 0) = 1 :=
  have h := snapshot_copies_every_license alice_registry
  ⟨h.1, (h.2.1 0).trans (by decide), h.2.2.2.1 100 0 (by decide),
    h.2.2.2.2 (by decide) (by decide) 100 0 (by decide)⟩

theorem take_8_of_take_12 (x y : List Char) (h : x.take 12 = y.take 12) :
    x.take 8 = y.take 8 := by
  have h2 := congrArg (List.take 8) h
  simpa [List.take_take] using h2

theorem verify_pc_eq_spec (m : LicenseManager) (s : Nat) (access_key : List Char)
    (password : Option (List Char)) (now : Nat) :
    verify_pc m s access_key password now = verify_spec 8 m s access_key password now := by
  cases hf : map_find m.serial_number_to_license s with
  | none => simp [verify_pc, verify_spec, map_at, hf, NotFound]
  | some p => rw [verify_pc_of_find m s p access_key password now hf]; simp [verify_spec, hf]

theorem verify_gc_eq_spec (m : LicenseManager) (s : Nat) (access_key : List Char)
    (password : Option (List Char)) (now : Nat) :
    verify_gc m s access_key password now = verify_spec 12 m s access_key password now := by
  cases hf : map_find m.serial_number_to_license s with
  | none => simp [verify_gc, verify_spec, map_at, hf, NotFound]
  | some p => rw [verify_gc_of_find m s p access_key password now hf]; simp [verify_spec, hf]

/-- C19: `verify_pc` and `verify_gc` are the one verification of the
specification at comparison lengths 8 and 12.  For every registry state,
serial number, access key, optional password and clock value: if `verify_gc`
succeeds then `verify_pc` succeeds and returns the same license; and the two
return the identical result (same license or same error) when the serial
number is not registered, and when the supplied key agrees with the stored key
on the first 12 bytes or differs from it within the first 8, as `strncmp`
compares them. -/
theorem verify_pc_gc_same_verification (m : LicenseManager) (s : Nat)
    (access_key : List Char) (password : Option (List Char)) (now : Nat) :
    verify_pc m s access_key password now = verify_spec 8 m s access_key password now ∧
    verify_gc m s access_key password now = verify_spec 12 m s access_key password now ∧
    (∀ p, verify_gc m s access_key password now = Except.ok p →
      verify_pc m s access_key password now = Except.ok p) ∧
    (map_find m.serial_number_to_license s = none →
      verify_pc m s access_key password now = verify_gc m s access_key password now) ∧
    (∀ p, map_find m.serial_number_to_license s = some p →
      ((c_str (m.heap p).access_key ++ [NUL]).take 12 =
          (c_str access_key ++ [NUL]).take 12 ∨
        (c_str (m.heap p).access_key ++ [NUL]).take 8 ≠
          (c_str access_key ++ [NUL]).take 8) →
      verify_pc m s access_key password now = verify_gc m s access_key password now) := by
  refine ⟨verify_pc_eq_spec m s access_key password now,
    verify_gc_eq_spec m s access_key password now, ?_, ?_, ?_⟩
  · intro p hgc
    cases hf : map_find m.serial_number_to_license s with
    | none => simp [verify_gc, map_at, hf] at hgc
    | some q =>
      rw [verify_gc_of_find m s q access_key password now hf] at hgc
      rw [verify_pc_of_find m s q access_key password now hf]
      by_cases hk : (c_str (m.heap q).access_key ++ [NUL]).take 12 =
          (c_str access_key ++ [NUL]).take 12
      · have hk8 := take_8_of_take_12 _ _ hk
        simpa [hk, hk8] using hgc
      · simp [hk] at hgc
  · intro hf
    simp [verify_pc, verify_gc, map_at, hf]
  · intro p hf hk
    rw [verify_pc_of_find m s p access_key password now hf,
      verify_gc_of_find m s p access_key password now hf]
    rcases hk with hk | hk
    · have hk8 := take_8_of_take_12 _ _ hk
      simp [hk, hk8]
    · have hk12 : (c_str (m.heap p).access_key ++ [NUL]).take 12 ≠
          (c_str access_key ++ [NUL]).take 12 := fun h => hk (take_8_of_take_12 _ _ h)
      simp [hk, hk12]

/-- Witness of C19: against `alice`, the stored key is accepted by both
variants, the key "ABCDEFGX" is refused by both, and an unknown serial number
is NotFound for both. -/
theorem verify_pc_gc_same_verification_witness :
    verify_pc alice_registry 100 "ABCDEFGH".toList none 5 = Except.ok 0 ∧
    verify_pc alice_registry 7 "ABCDEFGH".toList none 5 =
      verify_gc alice_registry 7 "ABCDEFGH".toList none 5 ∧
    verify_pc alice_registry 100 "ABCDEFGH".toList none 5 =
      verify_gc alice_registry 100 "ABCDEFGH".toList none 5 ∧
    verify_pc alice_registry 100 "ABCDEFGX".toList none 5 =
      verify_gc alice_registry 100 "ABCDEFGX".toList none 5 :=
  ⟨(verify_pc_gc_same_verification alice_registry 100 "ABCDEFGH".toList none 5).2.2.1 0 rfl,
    (verify_pc_gc_same_verification alice_registry 7 "ABCDEFGH".toList none 5).2.2.2.1
      (by decide),
    (verify_pc_gc_same_verification alice_registry 100 "ABCDEFGH".toList none 5).2.2.2.2 0
      (by decide) (Or.inl (by decide)),
    (verify_pc_gc_same_verification alice_registry 100 "ABCDEFGX".toList none 5).2.2.2.2 0
      (by decide) (Or.inr (by decide))⟩

/-- C20: `add` never overwrites.  For a license `L` (the object at `l`) whose
serial number is already a key of the serial-number index, `add` raises no
error, leaves `count()` and the serial-number index as they were, and that
serial number still maps to the record registered before, with its contents;
and if `L.username` is non-empty and already a key of the username index,
that key still refers to the record registered before. -/
theorem add_never_overwrites (m : LicenseManager) (l : Nat) (L : License)
    (hL : m.heap l = L) :
    (∀ p0, map_find m.serial_number_to_license L.serial_number = some p0 →
      (add m l).1 = Except.ok () ∧
      count (add m l).2 = count m ∧
      (add m l).2.serial_number_to_license = m.serial_number_to_license ∧
      map_find (add m l).2.serial_number_to_license L.serial_number = some p0 ∧
      (add m l).2.heap p0 = m.heap p0) ∧
    (∀ q0, L.has_username →
      map_find m.bb_username_to_license (c_str L.username) = some q0 →
      (add m l).1 = Except.ok () ∧
      (add m l).2.bb_username_to_license = m.bb_username_to_license ∧
      map_find (add m l).2.bb_username_to_license (c_str L.username) = some q0 ∧
      (add m l).2.heap q0 = m.heap q0) := by
  subst hL
  constructor
  · intro p0 hf
    have hs : (add m l).2.serial_number_to_license = m.serial_number_to_license := by
      rw [add_serial_number_to_license, map_emplace_of_some _ _ _ p0 hf]
    refine ⟨rfl, ?_, hs, ?_, ?_⟩
    · simp [count, hs]
    · rw [hs]; exact hf
    · rw [add_heap]
  · intro q0 hn hf
    have hu : (add m l).2.bb_username_to_license = m.bb_username_to_license := by
      rw [add_bb_username_to_license, if_pos hn, map_emplace_of_some _ _ _ q0 hf]
    refine ⟨rfl, hu, ?_, ?_⟩
    · rw [hu]; exact hf
    · rw [add_heap]

/-- Witness of C20: `bob_100` (serial number of `alice`) and `alice_101`
(username of `alice`) added to the registry that holds `alice` at address 0. -/
theorem add_never_overwrites_witness :
    ((add alice_registry_with_bob_100 1).1 = Except.ok () ∧
      count (add alice_registry_with_bob_100 1).2 = count alice_registry_with_bob_100 ∧
      (add alice_registry_with_bob_100 1).2.serial_number_to_license =
        alice_registry_with_bob_100.serial_number_to_license ∧
      map_find (add alice_registry_with_bob_100 1).2.serial_number_to_license 100 = some 0 ∧
      (add alice_registry_with_bob_100 1).2.heap 0 = alice_registry_with_bob_100.heap 0) ∧
    ((add alice_registry_with_alice_101 1).1 = Except.ok () ∧
      (add alice_registry_with_alice_101 1).2.bb_username_to_license =
        alice_registry_with_alice_101.bb_username_to_license ∧
      map_find (add alice_registry_with_alice_101 1).2.bb_username_to_license
        "alice".toList = some 0 ∧
      (add alice_registry_with_alice_101 1).2.heap 0 =
        alice_registry_with_alice_101.heap 0) :=
  ⟨(add_never_overwrites alice_registry_with_bob_100 1 bob_100 (by decide)).1 0
      (by decide),
    (add_never_overwrites alice_registry_with_alice_101 1 alice_101 (by decide)).2 0
      (by decide) (by decide)⟩

/-! ## States reachable from the empty registry -/

theorem InvU_add_new (m : LicenseManager) (L : License) (hinv : InvU m)
    (hs : map_find m.serial_number_to_license L.serial_number = none) :
    InvU (add (new_License m L).1 (new_License m L).2).2 := by
  rw [add_new_eq]
  have hold : ∀ e ∈ m.bb_username_to_license, heap_set m.heap m.next L e.2 = m.heap e.2 :=
    fun e he => heap_set_ne _ _ _ _ (Nat.ne_of_lt (hinv.below_next_u e he))
  have hmem : ∀ e, e ∈ (if L.has_username then
        map_emplace m.bb_username_to_license (c_str L.username) m.next
      else m.bb_username_to_license) →
      e ∈ m.bb_username_to_license ∨ (L.has_username ∧ e = (c_str L.username, m.next)) := by
    intro e he
    by_cases hn : L.has_username
    · rw [if_pos hn] at he
      cases hf : map_find m.bb_username_to_license (c_str L.username) with
      | some v =>
        rw [map_emplace_of_some _ _ _ v hf] at he
        exact Or.inl he
      | none =>
        rw [map_emplace_of_none _ _ _ hf, List.mem_append, List.mem_singleton] at he
        rcases he with he | he
        · exact Or.inl he
        · exact Or.inr ⟨hn, he⟩
    · rw [if_neg hn] at he
      exact Or.inl he
  constructor
  · by_cases hn : L.has_username
    · simp only [if_pos hn]
      exact nodup_keys_emplace _ _ _ hinv.nodup_u
    · simp only [if_neg hn]
      exact hinv.nodup_u
  · intro e he
    rcases hmem e he with h | ⟨hn, h⟩
    · simp only [hold e h]
      obtain ⟨h1, h2, h3⟩ := hinv.from_serial e h
      exact ⟨h1, h2, map_find_emplace_of_some _ _ _ _ _ h3⟩
    · subst h
      simp only [heap_set_self]
      exact ⟨hn, trivial, map_find_emplace_self _ _ _ hs⟩
  · intro e he
    rcases hmem e he with h | ⟨_, h⟩
    · exact Nat.lt_succ_of_lt (hinv.below_next_u e h)
    · subst h
      exact Nat.lt_succ_self _

theorem InvU_remove (m : LicenseManager) (s : Nat) (hinv : Inv m) (hinvu : InvU m) :
    InvU (remove m s).2 := by
  cases hf : map_find m.serial_number_to_license s with
  | none => rw [remove_eq_of_none m s hf]; exact hinvu
  | some l =>
    rw [remove_eq m s l hf]
    have hl := mem_of_map_find _ _ _ hf
    have hks : (m.heap l).serial_number = s := hinv.key_serial (s, l) hl
    have hmem : ∀ e, e ∈ (if (m.heap l).has_username then
          map_erase m.bb_username_to_license (c_str (m.heap l).username)
        else m.bb_username_to_license) →
        e ∈ m.bb_username_to_license ∧
          ((m.heap l).has_username → e.1 ≠ c_str (m.heap l).username) := by
      intro e he
      by_cases hn : (m.heap l).has_username
      · rw [if_pos hn] at he
        exact ⟨(mem_of_mem_map_erase _ _ e he).1, fun _ => (mem_of_mem_map_erase _ _ e he).2⟩
      · rw [if_neg hn] at he
        exact ⟨he, fun h => absurd h hn⟩
    constructor
    · by_cases hn : (m.heap l).has_username
      · simp only [if_pos hn]
        exact nodup_keys_erase _ _ hinvu.nodup_u
      · simp only [if_neg hn]
        exact hinvu.nodup_u
    · intro e he
      obtain ⟨he1, he2⟩ := hmem e he
      obtain ⟨h1, h2, h3⟩ := hinvu.from_serial e he1
      refine ⟨h1, h2, ?_⟩
      rw [map_find_erase_ne]
      · exact h3
      · intro heq
        rw [← heq, hks, hf] at h3
        have h4 : l = e.2 := Option.some.inj h3
        subst h4
        exact he2 h1 h2.symm
    · intro e he
      exact hinvu.below_next_u e (hmem e he).1

theorem InvU_ban_until (m : LicenseManager) (s t : Nat) (hinvu : InvU m) :
    InvU (ban_until m s t).2 := by
  cases hf : map_find m.serial_number_to_license s with
  | none => rw [ban_until_eq_of_none m s t hf]; exact hinvu
  | some p =>
    rw [ban_until_eq m s p t hf]
    constructor
    · exact hinvu.nodup_u
    · intro e he
      simp only [License.has_username, heap_set_ban_username, heap_set_ban_serial]
      exact hinvu.from_serial e he
    · exact hinvu.below_next_u

/-- Every state reachable from the empty registry satisfies both invariants. -/
theorem InvU_of_reachable (m : LicenseManager) (hr : Reachable none m) :
    Inv m ∧ InvU m := by
  have hfile : ∀ records : List License, (none : Option (List License)) = some records →
      distinct_keys records := fun _ h => Option.noConfusion h
  refine ⟨Inv_of_reachable none m hfile hr, ?_⟩
  induction hr with
  | load =>
    constructor <;> simp [LicenseManager.LicenseManager, load_vector_file, LicenseManager.init]
  | add m L _ hs _ ih => exact InvU_add_new m L ih hs
  | remove m s hr ih => exact InvU_remove m s (Inv_of_reachable none m hfile hr) ih
  | ban_until m s t _ ih => exact InvU_ban_until m s t ih

/-- C18: starting from the empty registry (what the constructor produces when
the backing file does not exist: `count()` is 0 and both indices are empty),
every state reached by `add` calls within the caller precondition, `remove`
calls and `ban_until` calls, failed calls included, satisfies: each key of the
serial-number index is the serial number of the record it maps to; every
record of the serial-number index with a non-empty username is what the
username index returns for that username; and every entry of the username
index refers to a record with a non-empty username, under that username, which
the serial-number index holds under the record's serial number; no key occurs
twice in either index. -/
theorem indices_consistent_from_empty (m : LicenseManager) (hr : Reachable none m) :
    count (LicenseManager.LicenseManager none) = 0 ∧
    (LicenseManager.LicenseManager none).serial_number_to_license = [] ∧
    (LicenseManager.LicenseManager none).bb_username_to_license = [] ∧
    (∀ e ∈ m.serial_number_to_license, (m.heap e.2).serial_number = e.1) ∧
    (∀ e ∈ m.serial_number_to_license, (m.heap e.2).has_username →
      map_find m.bb_username_to_license (c_str (m.heap e.2).username) = some e.2) ∧
    (∀ e ∈ m.bb_username_to_license,
      (m.heap e.2).has_username ∧ c_str (m.heap e.2).username = e.1 ∧
      map_find m.serial_number_to_license (m.heap e.2).serial_number = some e.2) ∧
    (m.serial_number_to_license.map Prod.fst).Nodup ∧
    (m.bb_username_to_license.map Prod.fst).Nodup := by
  obtain ⟨hinv, hinvu⟩ := InvU_of_reachable m hr
  exact ⟨rfl, rfl, rfl, hinv.key_serial, hinv.by_username, hinvu.from_serial,
    hinv.nodup, hinvu.nodup_u⟩

/-- Witness of C18: the empty registry after `add` of `alice`, `ban_until` and
`remove` of an unknown serial number. -/
theorem indices_consistent_from_empty_witness :
    count (LicenseManager.LicenseManager none) = 0 ∧
    (LicenseManager.LicenseManager none).serial_number_to_license = [] ∧
    (LicenseManager.LicenseManager none).bb_username_to_license = [] ∧
    (∀ e ∈ busy_registry.serial_number_to_license,
      (busy_registry.heap e.2).serial_number = e.1) ∧
    (∀ e ∈ busy_registry.serial_number_to_license, (busy_registry.heap e.2).has_username →
      map_find busy_registry.bb_username_to_license
        (c_str (busy_registry.heap e.2).username) = some e.2) ∧
    (∀ e ∈ busy_registry.bb_username_to_license,
      (busy_registry.heap e.2).has_username ∧
      c_str (busy_registry.heap e.2).username = e.1 ∧
      map_find busy_registry.serial_number_to_license
        (busy_registry.heap e.2).serial_number = some e.2) ∧
    (busy_registry.serial_number_to_license.map Prod.fst).Nodup ∧
    (busy_registry.bb_username_to_license.map Prod.fst).Nodup :=
  indices_consistent_from_empty busy_registry
    (Reachable.remove _ 7
      (Reachable.ban_until _ 100 9
        (Reachable.add _ alice Reachable.load (by decide) (fun _ => by decide))))

/-! ## The lock mode of each operation -/

/-- C17, evaluated on the code: `add` and `remove` write the indices under the
exclusive lock and the read operations read under the shared lock, in every
state; `ban_until` of a registered serial number (100 in the registry holding
`alice`) writes the record's `ban_end_time` while the lock is held in shared
mode. -/
theorem ban_until_writes_under_shared_lock :
    (∀ m l, writes_under_exclusive none (add_accesses m l) = true) ∧
    (∀ m s, writes_under_exclusive none (remove_accesses m s) = true) ∧
    (∀ m s, reads_under_shared none (verify_accesses m s) = true) ∧
    (∀ m u, reads_under_shared none (verify_bb_accesses m u) = true) ∧
    reads_under_shared none count_accesses = true ∧
    reads_under_shared none snapshot_accesses = true ∧
    ban_until_accesses alice_registry 100 =
      [Access.guard false, Access.read_index, Access.write_record, Access.read_index,
        Access.read_record, Access.write_file, Access.unguard] ∧
    writes_under_exclusive none (ban_until_accesses alice_registry 100) = false := by
  refine ⟨?_, ?_, ?_, ?_, rfl, rfl, by decide, by decide⟩
  · intro m l
    by_cases hn : (m.heap l).has_username <;>
      simp [add_accesses, save_locked_accesses, writes_under_exclusive, hn]
  · intro m s
    cases hf : map_find m.serial_number_to_license s with
    | none => simp [remove_accesses, writes_under_exclusive, hf]
    | some l =>
      by_cases hn : (m.heap l).has_username <;>
        simp [remove_accesses, save_locked_accesses, writes_under_exclusive, hf, hn]
  · intro m s
    cases hf : map_find m.serial_number_to_license s <;>
      simp [verify_accesses, reads_under_shared, hf]
  · intro m u
    cases hf : map_find m.bb_username_to_license (c_str u) <;>
      simp [verify_bb_accesses, reads_under_shared, hf]

/-! ## The textual representation -/

theorem head_ne_NUL_iff (s : List Char) : s.headD NUL ≠ NUL ↔ c_str s ≠ [] := by
  cases s with
  | nil => simp [c_str_nil]
  | cons c s =>
    rw [c_str_cons]
    by_cases hc : c = NUL <;> simp [hc]

/-- C14: for every license, `License::str()` is the text of the specification:
"License(serial_number=" and the decimal serial number, followed in this order
by ", username=", ", bb-password=", ", access-key=" and ", gc-password=" with
their strings, each if and only if the string is non-empty, then always
", privileges=" and the decimal privileges, then ", banned-until=" and the
decimal `ban_end_time` if and only if it is not 0, then ")". -/
theorem str_is_spec (l : License) : l.str = str_spec l := by
  unfold License.str str_spec str_field string_printf_u
  simp only [head_ne_NUL_iff]
  by_cases h1 : c_str l.username = [] <;> by_cases h2 : c_str l.bb_password = [] <;>
    by_cases h3 : c_str l.access_key = [] <;> by_cases h4 : c_str l.gc_password = [] <;>
    by_cases h5 : l.ban_end_time = 0 <;>
    simp [h1, h2, h3, h4, h5, List.append_assoc]

theorem str_alice : alice.str =
    ("License(serial_number=100, username=alice, access-key=ABCDEFGH, gc-password=pw1, " ++
      "privileges=0)").toList := by
  decide

/-- Counterexample to C15: two licenses with different usernames and different
bb-passwords whose textual representations are the same string. -/
theorem str_is_not_injective :
    license_a_comma.str = license_a_b.str ∧
    license_a_comma.str =
      "License(serial_number=1, username=a, bb-password=b, privileges=0)".toList ∧
    c_str license_a_comma.username ≠ c_str license_a_b.username ∧
    c_str license_a_comma.bb_password ≠ c_str license_a_b.bb_password ∧
    ¬ same_logical_fields license_a_comma license_a_b := by
  decide

/-! ### Decimal digits -/

theorem toDigitsCore_append (fuel : Nat) : ∀ (n : Nat) (ds : List Char),
    Nat.toDigitsCore 10 fuel n ds = Nat.toDigitsCore 10 fuel n [] ++ ds := by
  induction fuel with
  | zero => intro n ds; simp [Nat.toDigitsCore]
  | succ fuel ih =>
    intro n ds
    simp only [Nat.toDigitsCore]
    by_cases h : n / 10 = 0
    · simp [h]
    · simp only [h, if_false]
      rw [ih (n / 10) (Nat.digitChar (n % 10) :: ds), ih (n / 10) [Nat.digitChar (n % 10)]]
      simp

theorem digit_value_digitChar (k : Nat) (h : k < 10) : digit_value (Nat.digitChar k) = k := by
  interval_cases k <;> rfl

theorem digitChar_ne_comma (k : Nat) (h : k < 10) : Nat.digitChar k ≠ ',' := by
  interval_cases k <;> decide

theorem decimal_value_append (s : List Char) (c : Char) :
    decimal_value (s ++ [c]) = decimal_value s * 10 + digit_value c := by
  simp [decimal_value, List.foldl_append]

theorem decimal_value_toDigitsCore (fuel : Nat) : ∀ n, n < fuel →
    decimal_value (Nat.toDigitsCore 10 fuel n []) = n := by
  induction fuel with
  | zero => intro n h; omega
  | succ fuel ih =>
    intro n hn
    simp only [Nat.toDigitsCore]
    by_cases h : n / 10 = 0
    · simp only [h, if_true]
      have h1 : n % 10 = n := by omega
      have h2 : n < 10 := by omega
      simp [decimal_value, h1, digit_value_digitChar n h2]
    · simp only [h, if_false]
      rw [toDigitsCore_append, decimal_value_append, ih (n / 10) (by omega),
        digit_value_digitChar _ (Nat.mod_lt _ (by decide))]
      omega

/-- Reading the digits that `string_printf_u` prints gives the number back. -/
theorem decimal_value_string_printf_u (n : Nat) :
    decimal_value (string_printf_u n) = n :=
  decimal_value_toDigitsCore (n + 1) n (Nat.lt_succ_self n)

theorem string_printf_u_injective (n1 n2 : Nat)
    (h : string_printf_u n1 = string_printf_u n2) : n1 = n2 := by
  have h2 := congrArg decimal_value h
  rwa [decimal_value_string_printf_u, decimal_value_string_printf_u] at h2

theorem toDigitsCore_no_comma (fuel : Nat) : ∀ (n : Nat) (ds : List Char),
    ',' ∉ ds → ',' ∉ Nat.toDigitsCore 10 fuel n ds := by
  induction fuel with
  | zero => intro n ds h; simpa [Nat.toDigitsCore] using h
  | succ fuel ih =>
    intro n ds hds
    simp only [Nat.toDigitsCore]
    have hd : ',' ∉ Nat.digitChar (n % 10) :: ds := by
      intro hmem
      rcases List.mem_cons.1 hmem with h1 | h1
      · exact digitChar_ne_comma _ (Nat.mod_lt _ (by decide)) h1.symm
      · exact hds h1
    by_cases h : n / 10 = 0
    · simpa only [h, if_true] using hd
    · simp only [h, if_false]
      exact ih _ _ hd

theorem string_printf_u_no_comma (n : Nat) : ',' ∉ string_printf_u n :=
  toDigitsCore_no_comma _ _ _ (by simp)

/-! ### Reading the textual representation back -/

theorem split_at_comma (a : List Char) : ∀ (b R1 R2 : List Char),
    ',' ∉ a → ',' ∉ b → (∃ x, R1 = ',' :: x) → (∃ y, R2 = ',' :: y) →
    a ++ R1 = b ++ R2 → a = b ∧ R1 = R2 := by
  induction a with
  | nil =>
    intro b R1 R2 _ hb ⟨x, hx⟩ _ h
    cases b with
    | nil => exact ⟨rfl, by simpa using h⟩
    | cons d b =>
      subst hx
      simp only [List.nil_append, List.cons_append, List.cons.injEq] at h
      exact absurd (List.mem_cons_self _ _) (h.1 ▸ hb)
  | cons c a ih =>
    intro b R1 R2 ha hb h1 ⟨y, hy⟩ h
    cases b with
    | nil =>
      subst hy
      simp only [List.nil_append, List.cons_append, List.cons.injEq] at h
      exact absurd (List.mem_cons_self _ _) (h.1 ▸ ha)
    | cons d b =>
      simp only [List.cons_append, List.cons.injEq] at h
      have ha2 : ',' ∉ a := fun hm => ha (List.mem_cons_of_mem _ hm)
      have hb2 : ',' ∉ b := fun hm => hb (List.mem_cons_of_mem _ hm)
      obtain ⟨e1, e2⟩ := ih b R1 R2 ha2 hb2 h1 ⟨y, hy⟩ h.2
      exact ⟨by rw [h.1, e1], e2⟩

theorem starts_with_comma (tags text : List Char) (h : starts_with_tag tags text) :
    ∃ x, text = ',' :: x := by
  obtain ⟨c, _, rest, hr⟩ := h
  exact ⟨' ' :: c :: rest, hr⟩

theorem starts_with_tag_str_field (c : Char) (label value text tags : List Char)
    (h : starts_with_tag tags text) :
    starts_with_tag (c :: tags) (str_field (',' :: ' ' :: c :: label) value ++ text) := by
  unfold str_field
  by_cases hv : c_str value = []
  · obtain ⟨d, hd, rest, hr⟩ := h
    exact ⟨d, List.mem_cons_of_mem _ hd, rest, by simp [hv, hr]⟩
  · exact ⟨c, List.mem_cons_self _ _, label ++ c_str value ++ text, by simp [hv]⟩

/-- One optional part can be read back: when what follows starts with the
label of a later part and the value has no comma, the value and what follows
are determined by the text. -/
theorem str_field_cancel (c : Char) (label v1 v2 R1 R2 tags : List Char)
    (hc : c ∉ tags) (hv1 : ',' ∉ c_str v1) (hv2 : ',' ∉ c_str v2)
    (hR1 : starts_with_tag tags R1) (hR2 : starts_with_tag tags R2)
    (h : str_field (',' :: ' ' :: c :: label) v1 ++ R1 =
      str_field (',' :: ' ' :: c :: label) v2 ++ R2) :
    c_str v1 = c_str v2 ∧ R1 = R2 := by
  unfold str_field at h
  by_cases h1 : c_str v1 = [] <;> by_cases h2 : c_str v2 = []
  · simp only [h1, h2, ne_eq, not_true_eq_false, if_false, List.nil_append] at h
    exact ⟨h1.trans h2.symm, h⟩
  · obtain ⟨d, hd, rest, hr⟩ := hR1
    simp [h1, h2, hr] at h
    exact absurd (h.1 ▸ hd) hc
  · obtain ⟨d, hd, rest, hr⟩ := hR2
    simp [h1, h2, hr] at h
    exact absurd (h.1 ▸ hd) hc
  · simp only [h1, h2, ne_eq, not_false_eq_true, if_true, List.append_assoc,
      List.cons_append, List.cons.injEq, true_and] at h
    have h3 := List.append_cancel_left h
    exact split_at_comma _ _ _ _ hv1 hv2 (starts_with_comma _ _ hR1)
      (starts_with_comma _ _ hR2) h3

theorem str_spec_eq (l : License) :
    str_spec l = "License(serial_number=".toList ++ (Nat.toDigits 10 l.serial_number ++
      (str_field ", username=".toList l.username ++
      (str_field ", bb-password=".toList l.bb_password ++
      (str_field ", access-key=".toList l.access_key ++
      (str_field ", gc-password=".toList l.gc_password ++ str_privileges_part l))))) := by
  simp only [str_spec, str_privileges_part, List.append_assoc]

theorem str_privileges_part_tag (l : License) :
    starts_with_tag ['p'] (str_privileges_part l) :=
  ⟨'p', List.mem_cons_self _ _, _, rfl⟩

/-- The privileges and the ban expiry can be read back from the end of the text. -/
theorem str_privileges_part_injective (l1 l2 : License)
    (h : str_privileges_part l1 = str_privileges_part l2) :
    l1.privileges = l2.privileges ∧ l1.ban_end_time = l2.ban_end_time := by
  unfold str_privileges_part at h
  have h3 := List.append_cancel_left h
  have hp1 := string_printf_u_no_comma l1.privileges
  have hp2 := string_printf_u_no_comma l2.privileges
  unfold string_printf_u at hp1 hp2
  by_cases t1 : l1.ban_end_time = 0 <;> by_cases t2 : l2.ban_end_time = 0
  · simp only [t1, t2, ne_eq, not_true_eq_false, if_false, List.nil_append] at h3
    exact ⟨string_printf_u_injective _ _ (List.append_cancel_right h3), t1.trans t2.symm⟩
  · simp only [t1, t2, ne_eq, not_true_eq_false, not_false_eq_true, if_false, if_true,
      List.nil_append] at h3
    exfalso
    have hm : ',' ∈ Nat.toDigits 10 l1.privileges ++ ")".toList := by
      rw [h3]
      exact List.mem_append_right _
        (List.mem_append_left _ (List.mem_append_left _ (by decide)))
    rcases List.mem_append.1 hm with h4 | h4
    · exact hp1 h4
    · exact absurd h4 (by decide)
  · simp only [t1, t2, ne_eq, not_true_eq_false, not_false_eq_true, if_false, if_true,
      List.nil_append] at h3
    exfalso
    have hm : ',' ∈ Nat.toDigits 10 l2.privileges ++ ")".toList := by
      rw [← h3]
      exact List.mem_append_right _
        (List.mem_append_left _ (List.mem_append_left _ (by decide)))
    rcases List.mem_append.1 hm with h4 | h4
    · exact hp2 h4
    · exact absurd h4 (by decide)
  · simp only [t1, t2, ne_eq, not_false_eq_true, if_true] at h3
    obtain ⟨e1, e2⟩ := split_at_comma _ _ _ _ hp1 hp2 ⟨_, rfl⟩ ⟨_, rfl⟩ h3
    have e3 : Nat.toDigits 10 l1.ban_end_time ++ ")".toList =
        Nat.toDigits 10 l2.ban_end_time ++ ")".toList := by
      have e4 : ", banned-until=".toList ++ (Nat.toDigits 10 l1.ban_end_time ++ ")".toList) =
          ", banned-until=".toList ++ (Nat.toDigits 10 l2.ban_end_time ++ ")".toList) := by
        simpa only [List.append_assoc] using e2
      exact List.append_cancel_left e4
    exact ⟨string_printf_u_injective _ _ e1,
      string_printf_u_injective _ _ (List.append_cancel_right e3)⟩

/-- The text of the specification determines the logical fields of a license
whose strings contain no comma. -/
theorem str_spec_injective (l1 l2 : License) (h1 : comma_free l1) (h2 : comma_free l2)
    (h : str_spec l1 = str_spec l2) : same_logical_fields l1 l2 := by
  rw [str_spec_eq l1, str_spec_eq l2] at h
  have h0 := List.append_cancel_left h
  obtain ⟨hu1, hb1, ha1, hg1⟩ := h1
  obtain ⟨hu2, hb2, ha2, hg2⟩ := h2
  have tg : ∀ l : License, starts_with_tag ['g', 'p']
      (str_field ", gc-password=".toList l.gc_password ++ str_privileges_part l) :=
    fun l => starts_with_tag_str_field 'g' _ _ _ _ (str_privileges_part_tag l)
  have ta : ∀ l : License, starts_with_tag ['a', 'g', 'p']
      (str_field ", access-key=".toList l.access_key ++
        (str_field ", gc-password=".toList l.gc_password ++ str_privileges_part l)) :=
    fun l => starts_with_tag_str_field 'a' _ _ _ _ (tg l)
  have tb : ∀ l : License, starts_with_tag ['b', 'a', 'g', 'p']
      (str_field ", bb-password=".toList l.bb_password ++
        (str_field ", access-key=".toList l.access_key ++
          (str_field ", gc-password=".toList l.gc_password ++ str_privileges_part l))) :=
    fun l => starts_with_tag_str_field 'b' _ _ _ _ (ta l)
  have tu : ∀ l : License, starts_with_tag ['u', 'b', 'a', 'g', 'p']
      (str_field ", username=".toList l.username ++
        (str_field ", bb-password=".toList l.bb_password ++
          (str_field ", access-key=".toList l.access_key ++
            (str_field ", gc-password=".toList l.gc_password ++
              str_privileges_part l)))) :=
    fun l => starts_with_tag_str_field 'u' _ _ _ _ (tb l)
  have hs1 := string_printf_u_no_comma l1.serial_number
  have hs2 := string_printf_u_no_comma l2.serial_number
  unfold string_printf_u at hs1 hs2
  obtain ⟨es, r1⟩ := split_at_comma _ _ _ _ hs1 hs2 (starts_with_comma _ _ (tu l1))
    (starts_with_comma _ _ (tu l2)) h0
  obtain ⟨eu, r2⟩ := str_field_cancel 'u' "sername=".toList _ _ _ _ ['b', 'a', 'g', 'p']
    (by decide) hu1 hu2 (tb l1) (tb l2) r1
  obtain ⟨eb, r3⟩ := str_field_cancel 'b' "b-password=".toList _ _ _ _ ['a', 'g', 'p']
    (by decide) hb1 hb2 (ta l1) (ta l2) r2
  obtain ⟨ea, r4⟩ := str_field_cancel 'a' "ccess-key=".toList _ _ _ _ ['g', 'p']
    (by decide) ha1 ha2 (tg l1) (tg l2) r3
  obtain ⟨eg, r5⟩ := str_field_cancel 'g' "c-password=".toList _ _ _ _ ['p']
    (by decide) hg1 hg2 (str_privileges_part_tag l1) (str_privileges_part_tag l2) r4
  obtain ⟨ep, et⟩ := str_privileges_part_injective l1 l2 r5
  exact ⟨string_printf_u_injective _ _ es, eu, eb, ea, eg, ep, et⟩

/-- C15 as amended: the textual representation is lossless on licenses whose
username, bb-password, access-key and gc-password contain no comma: two such
licenses that differ in `serial_number`, `username`, `bb_password`,
`access_key`, `gc_password`, `privileges` or `ban_end_time` (strings taken up
to their terminator) have different `str()`.  The strings are written as they
are, so a string that contains ", " and the label of a later part can make two
different licenses print alike. -/
theorem str_injective_without_commas (l1 l2 : License)
    (h1 : comma_free l1) (h2 : comma_free l2) (hne : ¬ same_logical_fields l1 l2) :
    l1.str ≠ l2.str := by
  intro h
  have e : ∀ l : License, l.str = str_spec l := by
    intro l
    unfold License.str str_spec str_field string_printf_u
    simp only [head_ne_NUL_iff]
    by_cases c1 : c_str l.username = [] <;> by_cases c2 : c_str l.bb_password = [] <;>
      by_cases c3 : c_str l.access_key = [] <;> by_cases c4 : c_str l.gc_password = [] <;>
      by_cases c5 : l.ban_end_time = 0 <;>
      simp [c1, c2, c3, c4, c5, List.append_assoc]
  rw [e l1, e l2] at h
  exact hne (str_spec_injective l1 l2 h1 h2 h)

/-- Witness of C15 as amended: `alice` and `bob_100` print differently. -/
theorem str_injective_without_commas_witness : alice.str ≠ bob_100.str :=
  str_injective_without_commas alice bob_100 (by decide) (by decide) (by decide)

end Newserv
